import Mathlib

/-!
Verification development for `scripts/export_onnx.py` of the go-pocket-tts
repository: an offline utility that exports PocketTTS sub-networks to ONNX
graphs and writes a JSON manifest.

The development shallowly embeds the parts of the script the claims are
about:

* the KV-cache bookkeeping helpers `extract_kv_tensors` /
  `rebuild_state_from_kv` and the `FlowLMStepWrapper.forward` step
  (value-level tensor model, `PocketTTS` namespace);
* the export pipeline of `main` (`build_specs`, `export_one`,
  `quantize_int8`, `inspect_onnx`, manifest assembly) over an abstract
  file-system and environment (`Pipeline` namespace);
* the aliasing discipline of `clone_model_state` used by
  `FlowLMMainWrapper.forward` and `MimiDecoderWrapper.forward`
  (heap-with-addresses model, `HeapModel` namespace).

External library behaviour (torch tracing, onnxruntime quantization, the
transformer backbone) is not part of the repository source; where a claim
depends on it, the definition carries a doc comment starting
`Modelled from the spec:`.
-/

namespace PocketTTS

/-- A scalar held by a float tensor.  The helpers under verification only
copy scalars around and pad with NaN, so the numeric payload is kept
abstract as an `Int`; `nan` is the distinguished not-a-number value used
for padding (`torch.full(..., float("nan"))`). -/
inductive FVal where
  | nan : FVal
  | val : Int → FVal
deriving DecidableEq, Repr

/-- A 5-dimensional tensor `[d0, d1, d2, d3, d4]` (KV caches are
`[2, B, T, H, Dh]`).  `data` is total; only indices below the bounds are
meaningful. -/
structure Tensor5 where
  d0 : Nat
  d1 : Nat
  d2 : Nat
  d3 : Nat
  d4 : Nat
  data : Nat → Nat → Nat → Nat → Nat → FVal

/-- A 3-dimensional float tensor `[d0, d1, d2]` (sequence frames are
`[B, S, ldim]`). -/
structure Tensor3 where
  d0 : Nat
  d1 : Nat
  d2 : Nat
  data : Nat → Nat → Nat → FVal

/-- A 2-dimensional float tensor `[d0, d1]`. -/
structure Tensor2 where
  d0 : Nat
  d1 : Nat
  data : Nat → Nat → FVal

/-- A 1-dimensional `int64` tensor (offsets). -/
structure IntTensor1 where
  size : Nat
  data : Nat → Int

/-- `torch.Tensor.expand(b)` on a 1-D tensor: legal when the tensor has
size 1 (broadcast) or already has size `b`; anything else raises at
runtime, modelled as `none`.  The subsequent `.clone()` in the source is
the identity at the value level. -/
def IntTensor1.expand (t : IntTensor1) (b : Nat) : Option IntTensor1 :=
  if t.size = 1 then some ⟨b, fun _ => t.data 0⟩
  else if t.size = b then some ⟨b, t.data⟩
  else none

/-- One per-layer entry of a `model_state` dict: the KV cache tensor and
the per-batch-element write offset. -/
structure LayerState where
  cache : Tensor5
  offset : IntTensor1

/-- What the embedding needs to know about one entry of
`flow_lm.named_modules()`: the module's `_module_absolute_name` and
whether it carries a `_cache_backend` attribute. -/
structure ModuleInfo where
  absName : String
  hasCacheBackend : Bool
deriving DecidableEq, Repr

end PocketTTS

section AssocDict

variable {α : Type}

/-- Python `dict` lookup `d[k]` (first match; keys are unique in an actual
dict). -/
def dictLookup (d : List (String × α)) (k : String) : Option α :=
  match d with
  | [] => none
  | (k', v) :: rest => if k' = k then some v else dictLookup rest k

/-- The keys of an association-list dict, in order. -/
def dictKeys (d : List (String × α)) : List String :=
  d.map (fun p => p.1)

/-- Python `dict` assignment `d[k] = v`: update in place if the key is
present, else append (insertion order preserved, like CPython dicts). -/
def dictInsert (d : List (String × α)) (k : String) (v : α) : List (String × α) :=
  if d.any (fun p => decide (p.1 = k)) then
    d.map (fun p => if p.1 = k then (k, v) else p)
  else d ++ [(k, v)]

/-- File deletion / the removal half of a move. -/
def dictRemove (d : List (String × α)) (k : String) : List (String × α) :=
  d.filter (fun p => decide (p.1 ≠ k))

theorem dictLookup_eq_none_iff (d : List (String × α)) (k : String) :
    dictLookup d k = none ↔ k ∉ dictKeys d := by
  induction d with
  | nil => simp [dictLookup, dictKeys]
  | cons p rest ih =>
    obtain ⟨k', v⟩ := p
    by_cases h : k' = k
    · subst h
      simp [dictLookup, dictKeys]
    · simp [dictLookup, dictKeys, h, ih, Ne.symm h]

theorem dictAny_eq_false_iff (d : List (String × α)) (k : String) :
    d.any (fun p => decide (p.1 = k)) = false ↔ k ∉ dictKeys d := by
  induction d with
  | nil => simp [dictKeys]
  | cons p rest ih =>
    obtain ⟨k', v⟩ := p
    by_cases h : k' = k
    · subst h
      simp [dictKeys]
    · simp [dictKeys, h, ih, Ne.symm h]

theorem dictInsert_of_not_mem (d : List (String × α)) (k : String) (v : α)
    (h : k ∉ dictKeys d) : dictInsert d k v = d ++ [(k, v)] := by
  unfold dictInsert
  simp [(dictAny_eq_false_iff d k).mpr h]

theorem dictLookup_append_of_not_mem (pre d : List (String × α)) (k : String)
    (h : k ∉ dictKeys pre) :
    dictLookup (pre ++ d) k = dictLookup d k := by
  induction pre with
  | nil => rfl
  | cons p rest ih =>
    obtain ⟨k', v⟩ := p
    simp only [dictKeys, List.map_cons, List.mem_cons, not_or] at h
    simp only [List.cons_append, dictLookup, if_neg (Ne.symm h.1), List.append_eq]
    exact ih (by simpa [dictKeys] using h.2)

theorem dictLookup_cons_self (d : List (String × α)) (k : String) (v : α) :
    dictLookup ((k, v) :: d) k = some v := by
  simp [dictLookup]

theorem dictKeys_append (d d' : List (String × α)) :
    dictKeys (d ++ d') = dictKeys d ++ dictKeys d' := by
  simp [dictKeys]

end AssocDict

namespace PocketTTS

/-- The cache-bearing modules of `flow_lm`, in `named_modules()` order:
those with a `_cache_backend` attribute. -/
def cacheMods (mods : List ModuleInfo) : List ModuleInfo :=
  mods.filter (fun m => m.hasCacheBackend)

/-- The cache tensor built inside `rebuild_state_from_kv` for one layer:
`torch.full((2, b, max_seq, h, dh), nan)` followed by the in-place write
`cache[:, :, :t_written_local, :, :] = kv`. -/
def padCache (kv : Tensor5) (maxSeq : Nat) : Tensor5 :=
  { d0 := 2, d1 := kv.d1, d2 := maxSeq, d3 := kv.d3, d4 := kv.d4
    data := fun p b t h d => if t < kv.d2 then kv.data p b t h d else FVal.nan }

/-- The slice `cache[:, :, :t, :, :]` (`t ≥ 0`, so Python slicing clamps
at the dimension). -/
def sliceT (c : Tensor5) (t : Nat) : Tensor5 :=
  { d0 := c.d0, d1 := c.d1, d2 := min t c.d2, d3 := c.d3, d4 := c.d4, data := c.data }

/-- Loop body of `rebuild_state_from_kv`: walk `named_modules()`, consume
one tensor from `kv_list` per cache-bearing module (`next` on an exhausted
iterator raises, modelled as `none`), pad it to `max_seq` with NaN and
store it with the expanded offset under `_module_absolute_name`.

The guard `kv.d0 = 2 ∧ kv.d2 ≤ maxSeq` models the shape requirement of
the in-place assignment `cache[:, :, :t, :, :] = kv` (a mismatching
right-hand side raises; broadcasting of a size-1 leading dim is not
modelled, every claim fixes `d0 = 2`). -/
def rebuildGo (offset : IntTensor1) (maxSeq : Nat) :
    List ModuleInfo → List Tensor5 → List (String × LayerState) →
    Option (List (String × LayerState))
  | [], _, acc => some acc
  | m :: rest, kvs, acc =>
    if m.hasCacheBackend then
      match kvs with
      | [] => none
      | kv :: kvRest =>
        if kv.d0 = 2 ∧ kv.d2 ≤ maxSeq then
          (offset.expand kv.d1).bind fun off =>
            rebuildGo offset maxSeq rest kvRest
              (dictInsert acc m.absName ⟨padCache kv maxSeq, off⟩)
        else none
    else rebuildGo offset maxSeq rest kvs acc

/-- `rebuild_state_from_kv(flow_lm, kv_list, offset, max_seq)`:
reconstruct a `model_state` dict from per-layer KV tensors. -/
def rebuild_state_from_kv (mods : List ModuleInfo) (kvs : List Tensor5)
    (offset : IntTensor1) (maxSeq : Nat) : Option (List (String × LayerState)) :=
  rebuildGo offset maxSeq mods kvs []

/-- Loop of `extract_kv_tensors`: for each cache-bearing module look its
state up by `_module_absolute_name` (a missing key raises, modelled as
`none`) and slice the written portion of the cache. -/
def extractGo (state : List (String × LayerState)) (tWritten : Nat) :
    List ModuleInfo → Option (List Tensor5)
  | [] => some []
  | m :: rest =>
    if m.hasCacheBackend then
      (dictLookup state m.absName).bind fun ls =>
        (extractGo state tWritten rest).map fun kvsOut =>
          sliceT ls.cache tWritten :: kvsOut
    else extractGo state tWritten rest

/-- `extract_kv_tensors(flow_lm, state, t_written)`: the per-layer
`[2, B, t_written, H, Dh]` cache slices plus
`torch.tensor([t_written], dtype=torch.long)`. -/
def extract_kv_tensors (mods : List ModuleInfo) (state : List (String × LayerState))
    (tWritten : Nat) : Option (List Tensor5 × IntTensor1) :=
  (extractGo state tWritten mods).map fun kvsOut =>
    (kvsOut, ⟨1, fun _ => (tWritten : Int)⟩)

/-- The dict `rebuild_state_from_kv` builds when every per-layer write
succeeds: one entry per cache-bearing module, keyed by absolute name,
holding the NaN-padded cache and the offset expanded to the batch size. -/
def rebuiltEntries (ms : List ModuleInfo) (kvs : List Tensor5) (offset : IntTensor1)
    (maxSeq : Nat) : List (String × LayerState) :=
  List.zipWith
    (fun m kv => (m.absName, (⟨padCache kv maxSeq, ⟨kv.d1, fun _ => offset.data 0⟩⟩ : LayerState)))
    ms kvs

theorem rebuildGo_eq (mods : List ModuleInfo) :
    ∀ (kvs : List Tensor5) (acc : List (String × LayerState))
      (offset : IntTensor1) (maxSeq : Nat),
    kvs.length = (cacheMods mods).length →
    (∀ kv ∈ kvs, kv.d0 = 2 ∧ kv.d2 ≤ maxSeq) →
    offset.size = 1 →
    (∀ m ∈ cacheMods mods, m.absName ∉ dictKeys acc) →
    (((cacheMods mods).map (fun m => m.absName)).Nodup) →
    rebuildGo offset maxSeq mods kvs acc =
      some (acc ++ rebuiltEntries (cacheMods mods) kvs offset maxSeq) := by
  induction mods with
  | nil =>
    intro kvs acc offset maxSeq _ _ _ _ _
    simp [rebuildGo, cacheMods, rebuiltEntries]
  | cons m rest ih =>
    intro kvs acc offset maxSeq hlen hshape hoff hfresh hnodup
    by_cases hm : m.hasCacheBackend
    · have hcm : cacheMods (m :: rest) = m :: cacheMods rest := by
        simp [cacheMods, hm]
      rw [hcm] at hlen hfresh hnodup
      cases kvs with
      | nil => simp at hlen
      | cons kv kvRest =>
        obtain ⟨h0, h2⟩ := hshape kv (List.mem_cons_self _ _)
        have hexp : offset.expand kv.d1 = some ⟨kv.d1, fun _ => offset.data 0⟩ := by
          simp [IntTensor1.expand, hoff]
        have hne : m.absName ∉ dictKeys acc := hfresh m (List.mem_cons_self _ _)
        have hheadfresh : m.absName ∉ (cacheMods rest).map (fun m => m.absName) := by
          simpa using (List.nodup_cons.mp hnodup).1
        have hrec := ih kvRest
            (acc ++ [(m.absName,
              (⟨padCache kv maxSeq, ⟨kv.d1, fun _ => offset.data 0⟩⟩ : LayerState))])
            offset maxSeq
            (by simpa using hlen)
            (fun kv' hkv' => hshape kv' (List.mem_cons_of_mem _ hkv'))
            hoff
            (fun m' hm' => by
              rw [dictKeys_append]
              simp only [List.mem_append, not_or]
              refine ⟨hfresh m' (List.mem_cons_of_mem _ hm'), ?_⟩
              have hmem : m'.absName ∈ (cacheMods rest).map (fun m => m.absName) :=
                List.mem_map_of_mem _ hm'
              intro hcontra
              simp only [dictKeys, List.map_cons, List.map_nil, List.mem_singleton] at hcontra
              exact hheadfresh (hcontra ▸ hmem))
            hnodup.of_cons
        simp only [rebuildGo, hm, if_true, if_pos (And.intro h0 h2), hexp, Option.some_bind,
          dictInsert_of_not_mem acc m.absName _ hne, hrec, hcm, rebuiltEntries,
          List.zipWith_cons_cons, List.append_assoc, List.singleton_append]
    · have hcm : cacheMods (m :: rest) = cacheMods rest := by
        simp [cacheMods, hm]
      rw [hcm] at hlen hfresh hnodup
      have hrec := ih kvs acc offset maxSeq hlen hshape hoff hfresh hnodup
      simp only [rebuildGo, hm, Bool.false_eq_true, if_false, hrec, hcm]

/-- `extractGo` over a state laid out as `pre` followed by one entry per
cache-bearing module (entry contents given by `F`): it returns the slice
of each entry's cache, provided the cache-bearing names are distinct and
do not occur in `pre`. -/
theorem extractGo_zipWith (F : ModuleInfo → Tensor5 → LayerState) (t : Nat) :
    ∀ (mods : List ModuleInfo) (kvs : List Tensor5) (pre : List (String × LayerState)),
    kvs.length = (cacheMods mods).length →
    (((cacheMods mods).map (fun m => m.absName)).Nodup) →
    (∀ m ∈ cacheMods mods, m.absName ∉ dictKeys pre) →
    extractGo
      (pre ++ List.zipWith (fun m kv => (m.absName, F m kv)) (cacheMods mods) kvs) t mods
      = some (List.zipWith (fun m kv => sliceT (F m kv).cache t) (cacheMods mods) kvs) := by
  intro mods
  induction mods with
  | nil =>
    intro kvs pre _ _ _
    simp [extractGo, cacheMods]
  | cons m rest ih =>
    intro kvs pre hlen hnodup hfresh
    by_cases hm : m.hasCacheBackend
    · have hcm : cacheMods (m :: rest) = m :: cacheMods rest := by
        simp [cacheMods, hm]
      rw [hcm] at hlen hnodup hfresh ⊢
      cases kvs with
      | nil => simp at hlen
      | cons kv kvRest =>
        have hheadpre : m.absName ∉ dictKeys pre := hfresh m (List.mem_cons_self _ _)
        have hsplit : pre ++ List.zipWith (fun m kv => (m.absName, F m kv))
              (m :: cacheMods rest) (kv :: kvRest) =
            (pre ++ [(m.absName, F m kv)]) ++
              List.zipWith (fun m kv => (m.absName, F m kv)) (cacheMods rest) kvRest := by
          simp [List.append_assoc]
        have hlook : dictLookup
            (pre ++ List.zipWith (fun m kv => (m.absName, F m kv))
              (m :: cacheMods rest) (kv :: kvRest))
            m.absName = some (F m kv) := by
          rw [dictLookup_append_of_not_mem _ _ _ hheadpre]
          simp [dictLookup]
        have hheadfresh : m.absName ∉ (cacheMods rest).map (fun m => m.absName) := by
          simpa using (List.nodup_cons.mp hnodup).1
        have hrec := ih kvRest (pre ++ [(m.absName, F m kv)])
          (by simpa using hlen)
          hnodup.of_cons
          (fun m' hm' => by
            rw [dictKeys_append]
            simp only [List.mem_append, not_or]
            refine ⟨hfresh m' (List.mem_cons_of_mem _ hm'), ?_⟩
            have hmem : m'.absName ∈ (cacheMods rest).map (fun m => m.absName) :=
              List.mem_map_of_mem _ hm'
            intro hcontra
            simp only [dictKeys, List.map_cons, List.map_nil, List.mem_singleton] at hcontra
            exact hheadfresh (hcontra ▸ hmem))
        rw [← hsplit] at hrec
        simp only [List.zipWith_cons_cons] at hlook hrec
        simp only [extractGo, hm, if_true, List.zipWith_cons_cons, hlook, Option.some_bind,
          hrec, Option.map_some']
    · have hcm : cacheMods (m :: rest) = cacheMods rest := by
        simp [cacheMods, hm]
      rw [hcm] at hlen hnodup hfresh ⊢
      have hrec := ih kvs pre hlen hnodup hfresh
      simp only [extractGo, hm, Bool.false_eq_true, if_false, hrec]

theorem forall₂_zipWith_zip {α β γ : Type} (R : γ → α × β → Prop) (g : α → β → γ) :
    ∀ (ms : List α) (kvs : List β),
    (∀ m kv, m ∈ ms → kv ∈ kvs → R (g m kv) (m, kv)) →
    List.Forall₂ R (List.zipWith g ms kvs) (ms.zip kvs) := by
  intro ms
  induction ms with
  | nil => intro kvs _; simp
  | cons m rest ih =>
    intro kvs h
    cases kvs with
    | nil => simp
    | cons kv kvRest =>
      refine List.Forall₂.cons (h m kv (List.mem_cons_self _ _) (List.mem_cons_self _ _)) ?_
      exact ih kvRest (fun m' kv' hm' hkv' =>
        h m' kv' (List.mem_cons_of_mem _ hm') (List.mem_cons_of_mem _ hkv'))

theorem forall₂_zipWith_right {α β γ : Type} (R : γ → β → Prop) (g : α → β → γ) :
    ∀ (ms : List α) (kvs : List β),
    ms.length = kvs.length →
    (∀ m kv, m ∈ ms → kv ∈ kvs → R (g m kv) kv) →
    List.Forall₂ R (List.zipWith g ms kvs) kvs := by
  intro ms
  induction ms with
  | nil =>
    intro kvs hlen _
    cases kvs with
    | nil => simp
    | cons kv kvRest => simp at hlen
  | cons m rest ih =>
    intro kvs hlen h
    cases kvs with
    | nil => simp at hlen
    | cons kv kvRest =>
      refine List.Forall₂.cons (h m kv (List.mem_cons_self _ _) (List.mem_cons_self _ _)) ?_
      exact ih kvRest (by simpa using hlen) (fun m' kv' hm' hkv' =>
        h m' kv' (List.mem_cons_of_mem _ hm') (List.mem_cons_of_mem _ hkv'))

/-- The per-layer cache condition of claim C1, as an executable check: the
rebuilt cache has shape `[2, B, max_seq, H, Dh]`, agrees with the trimmed
KV tensor on time positions `0 .. t-1` and is NaN on positions
`t .. max_seq-1`. -/
def cacheMatchesKV (cache kv : Tensor5) (maxSeq : Nat) : Bool :=
  decide (cache.d0 = 2) && decide (cache.d1 = kv.d1) && decide (cache.d2 = maxSeq) &&
  decide (cache.d3 = kv.d3) && decide (cache.d4 = kv.d4) &&
  ((List.range 2).all fun p => (List.range kv.d1).all fun b =>
    (List.range kv.d3).all fun hh => (List.range kv.d4).all fun dd =>
      ((List.range kv.d2).all fun tt =>
        decide (cache.data p b tt hh dd = kv.data p b tt hh dd)) &&
      ((List.range maxSeq).all fun tt =>
        decide (tt < kv.d2) || decide (cache.data p b tt hh dd = FVal.nan)))

/-- The per-layer offset condition of claim C1: the stored offset tensor
is the given offset expanded to length `b`. -/
def offsetExpandedTo (stored given : IntTensor1) (b : Nat) : Bool :=
  decide (stored.size = b) &&
  ((List.range b).all fun j => decide (stored.data j = given.data 0))

theorem cacheMatchesKV_padCache (kv : Tensor5) (maxSeq : Nat) :
    cacheMatchesKV (padCache kv maxSeq) kv maxSeq = true := by
  simp only [cacheMatchesKV, padCache, List.all_eq_true, List.mem_range,
    Bool.and_eq_true, Bool.or_eq_true, decide_eq_true_eq]
  refine ⟨by simp, fun p _ b _ hh _ dd _ => ⟨fun tt htt => by simp [htt], fun tt _ => ?_⟩⟩
  by_cases htt : tt < kv.d2
  · exact Or.inl htt
  · exact Or.inr (by simp [htt])

theorem offsetExpandedTo_expand (given : IntTensor1) (b : Nat) :
    offsetExpandedTo ⟨b, fun _ => given.data 0⟩ given b = true := by
  simp [offsetExpandedTo]

/-- Claim C1: for every list `kv_list` of per-layer KV tensors with one
entry per cache-bearing module of `flow_lm` (in `named_modules` order),
where `kv_list[i]` has shape `[2, B, t_i, H_i, Dh_i]` and `t_i ≤ max_seq`,
`rebuild_state_from_kv` returns a state dict with one entry per
cache-bearing module (keyed by its absolute name) whose cache has shape
`[2, B, max_seq, H_i, Dh_i]`, equals `kv_list[i]` on time positions
`0 .. t_i-1`, is NaN on positions `t_i .. max_seq-1`, and whose offset
entry is the given offset expanded to length `B`. -/
theorem C1_rebuild_state_from_kv_correct
    (mods : List ModuleInfo) (kvs : List Tensor5) (offset : IntTensor1) (maxSeq B : Nat)
    (hlen : kvs.length = (cacheMods mods).length)
    (hshape : ∀ kv ∈ kvs, kv.d0 = 2 ∧ kv.d1 = B ∧ kv.d2 ≤ maxSeq)
    (hoff : offset.size = 1)
    (hnodup : ((cacheMods mods).map (fun m => m.absName)).Nodup) :
    ∃ st, rebuild_state_from_kv mods kvs offset maxSeq = some st ∧
      List.Forall₂
        (fun (e : String × LayerState) (mkv : ModuleInfo × Tensor5) =>
          e.1 = mkv.1.absName ∧
          cacheMatchesKV e.2.cache mkv.2 maxSeq = true ∧
          offsetExpandedTo e.2.offset offset B = true)
        st ((cacheMods mods).zip kvs) := by
  refine ⟨rebuiltEntries (cacheMods mods) kvs offset maxSeq, ?_, ?_⟩
  · have h := rebuildGo_eq mods kvs [] offset maxSeq hlen
      (fun kv hkv => ⟨(hshape kv hkv).1, (hshape kv hkv).2.2⟩) hoff
      (fun m _ => by simp [dictKeys]) hnodup
    simpa [rebuild_state_from_kv] using h
  · unfold rebuiltEntries
    apply forall₂_zipWith_zip
    intro m kv _ hkv
    obtain ⟨h0, h1, h2⟩ := hshape kv hkv
    refine ⟨rfl, cacheMatchesKV_padCache kv maxSeq, ?_⟩
    subst h1
    exact offsetExpandedTo_expand offset kv.d1

/-- Concrete inputs for the C1 witness: a module list with two
cache-bearing layers and one plain module, and matching KV tensors. -/
def modsW1 : List ModuleInfo :=
  [⟨"transformer.layers.0.self_attn", true⟩,
   ⟨"transformer.norm", false⟩,
   ⟨"transformer.layers.1.self_attn", true⟩]

def kvsW1 : List Tensor5 :=
  [⟨2, 1, 1, 1, 1, fun p _ t _ _ => FVal.val ((p : Int) + t)⟩,
   ⟨2, 1, 2, 1, 2, fun p _ t _ d => FVal.val ((p : Int) * 10 + t + d)⟩]

def offW1 : IntTensor1 := ⟨1, fun _ => 2⟩

/-- Elementwise tensor equality as an executable check: equal shapes and
equal entries at every in-bounds index. -/
def Tensor5.eqv (a b : Tensor5) : Bool :=
  decide (a.d0 = b.d0) && decide (a.d1 = b.d1) && decide (a.d2 = b.d2) &&
  decide (a.d3 = b.d3) && decide (a.d4 = b.d4) &&
  ((List.range a.d0).all fun p => (List.range a.d1).all fun bb =>
    (List.range a.d2).all fun tt => (List.range a.d3).all fun hh =>
      (List.range a.d4).all fun dd =>
        decide (a.data p bb tt hh dd = b.data p bb tt hh dd))

theorem sliceT_padCache_eqv (kv : Tensor5) (maxSeq t : Nat)
    (h0 : kv.d0 = 2) (h2 : kv.d2 = t) (ht : t ≤ maxSeq) :
    Tensor5.eqv (sliceT (padCache kv maxSeq) t) kv = true := by
  simp only [Tensor5.eqv, sliceT, padCache, List.all_eq_true, List.mem_range,
    Bool.and_eq_true, decide_eq_true_eq]
  refine ⟨⟨⟨⟨⟨h0.symm, trivial⟩, by rw [h2]; exact inf_eq_left.mpr ht⟩, trivial⟩, trivial⟩,
    fun p _ bb _ tt htt hh _ dd _ => ?_⟩
  have hlt : tt < kv.d2 := by
    rw [h2]
    exact lt_of_lt_of_le htt inf_le_left
  simp [hlt]

theorem C1_rebuild_state_from_kv_correct_witness :
    (kvsW1.length = (cacheMods modsW1).length) ∧
    (∀ kv ∈ kvsW1, kv.d0 = 2 ∧ kv.d1 = 1 ∧ kv.d2 ≤ 3) ∧
    (offW1.size = 1) ∧
    (((cacheMods modsW1).map (fun m => m.absName)).Nodup) ∧
    (∃ st, rebuild_state_from_kv modsW1 kvsW1 offW1 3 = some st ∧
      List.Forall₂
        (fun (e : String × LayerState) (mkv : ModuleInfo × Tensor5) =>
          e.1 = mkv.1.absName ∧
          cacheMatchesKV e.2.cache mkv.2 3 = true ∧
          offsetExpandedTo e.2.offset offW1 1 = true)
        st ((cacheMods modsW1).zip kvsW1)) :=
  ⟨by decide, by decide, rfl, by decide,
   C1_rebuild_state_from_kv_correct modsW1 kvsW1 offW1 3 1
     (by decide) (by decide) rfl (by decide)⟩

/-- Claim C2: for a `kv_list` with one tensor of shape `[2, B, t, H, Dh]`
per cache-bearing module (all with the same time length `t ≤ max_seq`)
and an int64 offset tensor of value `t`, extracting right after
rebuilding is the identity: the extracted KV tensors are elementwise
equal to `kv_list` and the extracted offset is int64 `[1]` with value
`t`. -/
theorem C2_extract_rebuild_roundtrip
    (mods : List ModuleInfo) (kvs : List Tensor5) (offset : IntTensor1)
    (maxSeq t B : Nat)
    (hlen : kvs.length = (cacheMods mods).length)
    (hshape : ∀ kv ∈ kvs, kv.d0 = 2 ∧ kv.d1 = B ∧ kv.d2 = t)
    (ht : t ≤ maxSeq)
    (hoffsize : offset.size = 1)
    (hoffval : offset.data 0 = (t : Int))
    (hnodup : ((cacheMods mods).map (fun m => m.absName)).Nodup) :
    ∃ st kvsOut off,
      rebuild_state_from_kv mods kvs offset maxSeq = some st ∧
      extract_kv_tensors mods st t = some (kvsOut, off) ∧
      List.Forall₂ (fun kv' kv => Tensor5.eqv kv' kv = true) kvsOut kvs ∧
      off.size = 1 ∧ off.data 0 = (t : Int) := by
  refine ⟨rebuiltEntries (cacheMods mods) kvs offset maxSeq,
    List.zipWith
      (fun m kv =>
        sliceT ((⟨padCache kv maxSeq, ⟨kv.d1, fun _ => offset.data 0⟩⟩ : LayerState)).cache t)
      (cacheMods mods) kvs,
    ⟨1, fun _ => (t : Int)⟩, ?_, ?_, ?_, rfl, rfl⟩
  · have h := rebuildGo_eq mods kvs [] offset maxSeq hlen
      (fun kv hkv => ⟨(hshape kv hkv).1, by rw [(hshape kv hkv).2.2]; exact ht⟩)
      hoffsize (fun m _ => by simp [dictKeys]) hnodup
    simpa [rebuild_state_from_kv] using h
  · have h := extractGo_zipWith
      (fun m kv => (⟨padCache kv maxSeq, ⟨kv.d1, fun _ => offset.data 0⟩⟩ : LayerState))
      t mods kvs [] hlen hnodup (fun m _ => by simp [dictKeys])
    simp only [List.nil_append] at h
    simp [extract_kv_tensors, rebuiltEntries, h]
  · apply forall₂_zipWith_right _ _ _ _ (hlen.symm)
    intro m kv _ hkv
    obtain ⟨h0, _, h2⟩ := hshape kv hkv
    exact sliceT_padCache_eqv kv maxSeq t h0 h2 ht

/-- Concrete inputs for the C2 witness. -/
def modsW2 : List ModuleInfo :=
  [⟨"layers.0.attn", true⟩, ⟨"layers.0.mlp", false⟩, ⟨"layers.1.attn", true⟩]

def kvsW2 : List Tensor5 :=
  [⟨2, 1, 2, 1, 1, fun p _ t _ _ => FVal.val ((p : Int) * 3 + t)⟩,
   ⟨2, 1, 2, 2, 1, fun p _ t h _ => FVal.val ((p : Int) * 5 + t + h)⟩]

def offW2 : IntTensor1 := ⟨1, fun _ => 2⟩

theorem C2_extract_rebuild_roundtrip_witness :
    (kvsW2.length = (cacheMods modsW2).length) ∧
    (∀ kv ∈ kvsW2, kv.d0 = 2 ∧ kv.d1 = 1 ∧ kv.d2 = 2) ∧
    (2 ≤ 4) ∧ (offW2.size = 1) ∧ (offW2.data 0 = (2 : Int)) ∧
    (((cacheMods modsW2).map (fun m => m.absName)).Nodup) ∧
    (∃ st kvsOut off,
      rebuild_state_from_kv modsW2 kvsW2 offW2 4 = some st ∧
      extract_kv_tensors modsW2 st 2 = some (kvsOut, off) ∧
      List.Forall₂ (fun kv' kv => Tensor5.eqv kv' kv = true) kvsOut kvsW2 ∧
      off.size = 1 ∧ off.data 0 = (2 : Int)) :=
  ⟨by decide, by decide, by decide, rfl, rfl, by decide,
   C2_extract_rebuild_roundtrip modsW2 kvsW2 offW2 4 2 1
     (by decide) (by decide) (by decide) rfl rfl (by decide)⟩

theorem exists_of_mem_zipWith {α β γ : Type} (g : α → β → γ) :
    ∀ (ms : List α) (kvs : List β) (x : γ), x ∈ List.zipWith g ms kvs →
      ∃ m kv, m ∈ ms ∧ kv ∈ kvs ∧ x = g m kv := by
  intro ms
  induction ms with
  | nil => intro kvs x hx; simp at hx
  | cons m rest ih =>
    intro kvs x hx
    cases kvs with
    | nil => simp at hx
    | cons kv kvRest =>
      rw [List.zipWith_cons_cons] at hx
      rcases List.mem_cons.mp hx with h | h
      · exact ⟨m, kv, List.mem_cons_self _ _, List.mem_cons_self _ _, h⟩
      · obtain ⟨m', kv', hm', hkv', rfl⟩ := ih kvRest x h
        exact ⟨m', kv', List.mem_cons_of_mem _ hm', List.mem_cons_of_mem _ hkv', rfl⟩

/-- The pieces of `model.flow_lm` used by `FlowLMStepWrapper`.  The numeric
sub-networks (`input_linear`, the transformer's hidden output, `out_norm`,
`out_eos`) are kept as abstract function-valued fields: their values do
not enter the KV-cache bookkeeping the claims are about. -/
structure FlowLM where
  modules : List ModuleInfo
  ldim : Nat
  dim : Nat
  inputLinear : Tensor3 → Tensor3
  backboneHidden : Tensor3 → Tensor3 → Tensor3 → List (String × LayerState) → Tensor3
  cacheWrite : String → Nat → Nat → Nat → Nat → Nat → FVal
  hasOutNorm : Bool
  outNorm : Tensor3 → Tensor3
  outEos : Tensor2 → Tensor2

/-- Modelled from the spec: the effect of one backbone pass on a single
cache-bearing layer's state.  The backbone concatenates text embeddings and
sequence input along time (`S` new positions) and, per layer, writes the
new key/value frames at positions `offset .. offset+S-1` of the cache and
advances the offset by `S` (the KV-cache / prefill / step contract the
spec describes).  The written values are abstracted by `fl.cacheWrite`. -/
def backboneWrite (fl : FlowLM) (S : Nat) (name : String) (ls : LayerState) : LayerState :=
  { cache :=
      { ls.cache with
        data := fun p b t hh dd =>
          if ls.offset.data b ≤ (t : Int) ∧ (t : Int) < ls.offset.data b + S then
            fl.cacheWrite name p b t hh dd
          else ls.cache.data p b t hh dd }
    offset := ⟨ls.offset.size, fun j => ls.offset.data j + S⟩ }

/-- Modelled from the spec: `flow_lm.backbone(projected, text, seq,
model_state=state)` returns the hidden states and mutates the given
state, writing `text.d1 + seq.d1` new time positions per cache layer. -/
def backbone (fl : FlowLM) (projected text seq : Tensor3)
    (state : List (String × LayerState)) :
    Tensor3 × List (String × LayerState) :=
  (fl.backboneHidden projected text seq state,
   state.map fun e => (e.1, backboneWrite fl (text.d1 + seq.d1) e.1 e.2))

/-- `torch.where(torch.isnan(sequence_frame), self.bos_emb, sequence_frame)`:
`bos_emb` is `[ldim]` and broadcasts along the last dimension. -/
def whereNaNBos (sf : Tensor3) (bos : Nat → FVal) : Tensor3 :=
  { sf with
    data := fun b s d =>
      match sf.data b s d with
      | FVal.nan => bos d
      | v => v }

/-- `FlowLMStepWrapper`: holds `flow_lm`, `max_sequence_length` and the
`bos_emb` buffer. -/
structure FlowLMStepWrapper where
  flow_lm : FlowLM
  max_sequence_length : Nat
  bos_emb : Nat → FVal

/-- The tuple returned by `FlowLMStepWrapper.forward`:
`(last_hidden, eos_logits, kv_0, ..., kv_{N-1}, offset)`. -/
structure StepOut where
  last_hidden : Tensor2
  eos_logits : Tensor2
  kvs : List Tensor5
  offset : IntTensor1

/-- `FlowLMStepWrapper.forward(sequence_frame, *args)` with
`args = (kv_0, ..., kv_{N-1}, offset)`: rebuild the state dict, replace
NaN BOS positions, run one backbone step, and extract the updated KV
tensors at `int(offset.item()) + 1`.  `item()` requires a one-element
tensor; a negative offset would make Python slice from the end, which is
outside every claim and modelled as failure. -/
def FlowLMStepWrapper.forward (w : FlowLMStepWrapper) (sequenceFrame : Tensor3)
    (kvList : List Tensor5) (offset : IntTensor1) : Option StepOut :=
  (rebuild_state_from_kv w.flow_lm.modules kvList offset w.max_sequence_length).bind
    fun state =>
      let frame := whereNaNBos sequenceFrame w.bos_emb
      let projected := w.flow_lm.inputLinear frame
      let emptyText : Tensor3 := ⟨1, 0, w.flow_lm.dim, fun _ _ _ => FVal.val 0⟩
      let hs := backbone w.flow_lm projected emptyText frame state
      let hidden := if w.flow_lm.hasOutNorm then w.flow_lm.outNorm hs.1 else hs.1
      let lastHidden : Tensor2 :=
        ⟨hidden.d0, hidden.d2, fun b d => hidden.data b (hidden.d1 - 1) d⟩
      let eosLogits := w.flow_lm.outEos lastHidden
      if offset.size = 1 ∧ 0 ≤ offset.data 0 then
        let newT := (offset.data 0 + 1).toNat
        (extract_kv_tensors w.flow_lm.modules hs.2 newT).map fun res =>
          ⟨lastHidden, eosLogits, res.1, res.2⟩
      else none

/-- Claim C3: for a step call whose KV inputs all have time dimension
equal to the (non-negative) value `o` of the offset tensor, with
`o + 1 ≤ max_sequence_length`, the call succeeds, the returned offset is
an int64 `[1]` tensor of value `o + 1`, and every returned KV tensor has
time dimension `o + 1`. -/
theorem C3_step_advances_offset_and_kv
    (w : FlowLMStepWrapper) (sequenceFrame : Tensor3)
    (kvs : List Tensor5) (offset : IntTensor1) (o : Nat)
    (hlen : kvs.length = (cacheMods w.flow_lm.modules).length)
    (hnodup : ((cacheMods w.flow_lm.modules).map (fun m => m.absName)).Nodup)
    (hoffsize : offset.size = 1)
    (hoffval : offset.data 0 = (o : Int))
    (hshape : ∀ kv ∈ kvs, kv.d0 = 2 ∧ kv.d2 = o)
    (hmax : o + 1 ≤ w.max_sequence_length) :
    ∃ out, w.forward sequenceFrame kvs offset = some out ∧
      out.offset.size = 1 ∧ out.offset.data 0 = (o : Int) + 1 ∧
      out.kvs.length = kvs.length ∧
      ∀ kv' ∈ out.kvs, kv'.d2 = o + 1 := by
  have hnn : (0 : Int) ≤ offset.data 0 := by
    rw [hoffval]
    exact Int.natCast_nonneg o
  have htn : (offset.data 0 + 1).toNat = o + 1 := by
    rw [hoffval]
    omega
  have hreb := rebuildGo_eq w.flow_lm.modules kvs [] offset w.max_sequence_length hlen
    (fun kv hkv => ⟨(hshape kv hkv).1, by rw [(hshape kv hkv).2]; omega⟩)
    hoffsize (fun m _ => by simp [dictKeys]) hnodup
  rw [List.nil_append] at hreb
  have hext := extractGo_zipWith
      (fun m kv => backboneWrite w.flow_lm (0 + sequenceFrame.d1) m.absName
        (⟨padCache kv w.max_sequence_length, ⟨kv.d1, fun _ => offset.data 0⟩⟩ : LayerState))
      (o + 1) w.flow_lm.modules kvs [] hlen hnodup (fun m _ => by simp [dictKeys])
  rw [List.nil_append] at hext
  obtain ⟨out, hfwd, hkvs, hoff⟩ :
      ∃ out, w.forward sequenceFrame kvs offset = some out ∧
        out.kvs =
          List.zipWith
            (fun m kv =>
              sliceT (backboneWrite w.flow_lm (0 + sequenceFrame.d1) m.absName
                (⟨padCache kv w.max_sequence_length,
                  ⟨kv.d1, fun _ => offset.data 0⟩⟩ : LayerState)).cache (o + 1))
            (cacheMods w.flow_lm.modules) kvs ∧
        out.offset = ⟨1, fun _ => ((o + 1 : Nat) : Int)⟩ := by
    simp only [FlowLMStepWrapper.forward, rebuild_state_from_kv, hreb, Option.some_bind,
      backbone, whereNaNBos, extract_kv_tensors]
    rw [if_pos ⟨hoffsize, hnn⟩, htn]
    unfold rebuiltEntries
    rw [List.map_zipWith]
    rw [hext]
    exact ⟨_, rfl, rfl, rfl⟩
  refine ⟨out, hfwd, ?_, ?_, ?_, ?_⟩
  · rw [hoff]
  · rw [hoff]
    push_cast
    ring
  · rw [hkvs]
    simp [List.length_zipWith, ← hlen]
  · rw [hkvs]
    intro kv' hkv'
    obtain ⟨m, kv, _, _, rfl⟩ := exists_of_mem_zipWith _ _ _ _ hkv'
    simp only [sliceT, backboneWrite, padCache]
    exact Nat.min_eq_left hmax

/-- Concrete inputs for the C3 witness: a two-layer model with dummy
numeric sub-networks. -/
def flW3 : FlowLM :=
  { modules := [⟨"layers.0.attn", true⟩, ⟨"layers.0.mlp", false⟩, ⟨"layers.1.attn", true⟩]
    ldim := 2
    dim := 3
    inputLinear := fun x => x
    backboneHidden := fun p _ _ _ => p
    cacheWrite := fun _ _ _ _ _ _ => FVal.val 1
    hasOutNorm := false
    outNorm := fun x => x
    outEos := fun x => x }

def wW3 : FlowLMStepWrapper := ⟨flW3, 4, fun _ => FVal.val 0⟩

def frameW3 : Tensor3 := ⟨1, 1, 2, fun _ _ _ => FVal.nan⟩

def kvsW3 : List Tensor5 :=
  [⟨2, 1, 2, 1, 1, fun _ _ _ _ _ => FVal.val 3⟩,
   ⟨2, 1, 2, 1, 1, fun _ _ _ _ _ => FVal.val 4⟩]

def offW3 : IntTensor1 := ⟨1, fun _ => 2⟩

theorem C3_step_advances_offset_and_kv_witness :
    (kvsW3.length = (cacheMods wW3.flow_lm.modules).length) ∧
    (((cacheMods wW3.flow_lm.modules).map (fun m => m.absName)).Nodup) ∧
    (offW3.size = 1) ∧ (offW3.data 0 = ((2 : Nat) : Int)) ∧
    (∀ kv ∈ kvsW3, kv.d0 = 2 ∧ kv.d2 = 2) ∧
    (2 + 1 ≤ wW3.max_sequence_length) ∧
    (∃ out, wW3.forward frameW3 kvsW3 offW3 = some out ∧
      out.offset.size = 1 ∧ out.offset.data 0 = ((2 : Nat) : Int) + 1 ∧
      out.kvs.length = kvsW3.length ∧
      ∀ kv' ∈ out.kvs, kv'.d2 = 2 + 1) :=
  ⟨by decide, by decide, rfl, by decide, by decide, by decide,
   C3_step_advances_offset_and_kv wW3 frameW3 kvsW3 offW3 2
     (by decide) (by decide) rfl (by decide) (by decide) (by decide)⟩

end PocketTTS

namespace Pipeline

/-! The export pipeline of `main`: `build_specs`, `export_one`,
`quantize_int8`, `inspect_onnx` and the manifest assembly, over an
abstract file system (an association list from path strings to file
contents) and an environment supplying everything decided by external
libraries. -/

/-- One JSON shape dimension produced by `tensor_shape_to_json`: a
`dim_param` string, a concrete integer, or `"?"`. -/
inductive JDim where
  | str : String → JDim
  | int : Int → JDim
deriving DecidableEq, Repr

/-- One dimension of an ONNX tensor type: protobuf fields `dim_param`
(truthy iff non-empty) and `dim_value` (truthy iff non-zero). -/
structure OnnxDim where
  dim_param : String
  dim_value : Int
deriving DecidableEq, Repr

/-- `tensor_shape_to_json`: `dim_param` if set, else `int(dim_value)` if
non-zero, else `"?"`. -/
def tensor_shape_to_json (dims : List OnnxDim) : List JDim :=
  dims.map fun d =>
    if d.dim_param ≠ "" then JDim.str d.dim_param
    else if d.dim_value ≠ 0 then JDim.int d.dim_value
    else JDim.str "?"

/-- A `ValueInfoProto` of an ONNX graph: name, tensor element type code,
and shape dimensions. -/
structure ValueInfo where
  name : String
  elem_type : Nat
  dims : List OnnxDim
deriving DecidableEq, Repr

/-- An ONNX file on disk: its declared graph inputs/outputs and its size
in bytes (the payload beyond the declarations is irrelevant to the
claims). -/
structure OnnxFile where
  inputs : List ValueInfo
  outputs : List ValueInfo
  size : Nat
deriving DecidableEq, Repr

/-- One input/output record of the manifest: `name`, `dtype`, `shape`. -/
structure IOEntry where
  name : String
  dtype : String
  shape : List JDim
deriving DecidableEq, Repr

/-- The dict returned by `inspect_onnx`: `filename`, `inputs`,
`outputs`. -/
structure GraphInfo where
  filename : String
  inputs : List IOEntry
  outputs : List IOEntry
deriving DecidableEq, Repr

/-- One entry of the manifest's `graphs` list: `name`, `size_bytes`, plus
the spread of `inspect_onnx`'s result. -/
structure GraphEntry where
  name : String
  size_bytes : Nat
  filename : String
  inputs : List IOEntry
  outputs : List IOEntry
deriving DecidableEq, Repr

/-- The manifest: top-level `variant`, `int8`, `graphs` (JSON
serialization elided; the record holds the serialized fields). -/
structure Manifest where
  variant : String
  int8 : Bool
  graphs : List GraphEntry
deriving DecidableEq, Repr

/-- A file's contents: an ONNX graph or the manifest JSON. -/
inductive FileContent where
  | onnx : OnnxFile → FileContent
  | manifestJson : Manifest → FileContent
deriving DecidableEq, Repr

/-- The file system: paths to contents. -/
abbrev FS := List (String × FileContent)

/-- The metadata fields of an `ExportSpec`.  The wrapped `module` and the
`example_inputs` are live tensors of the loaded model; they feed the
external tracer only and are elided from the metadata-level pipeline
model. -/
structure SpecMeta where
  name : String
  filename : String
  input_names : List String
  output_names : List String
  dynamic_axes : List (String × List (Nat × String))
deriving DecidableEq, Repr

/-- `[f"kv_{i}" for i in range(numKvLayers)]`. -/
def kvNames (n : Nat) : List String :=
  (List.range n).map fun i => "kv_" ++ toString i

/-- `build_specs(model, max_sequence_length)`: the eight export specs in
source order.  Only the KV-layer count of the model enters the metadata
(via the `kv_i` tensor names). -/
def build_specs (numKvLayers : Nat) : List SpecMeta :=
  [ { name := "text_conditioner", filename := "text_conditioner.onnx",
      input_names := ["tokens"], output_names := ["text_embeddings"],
      dynamic_axes := [("tokens", [(1, "text_tokens")]),
                       ("text_embeddings", [(1, "text_tokens")])] },
    { name := "flow_lm_main", filename := "flow_lm_main.onnx",
      input_names := ["sequence", "text_embeddings"],
      output_names := ["last_hidden", "eos_logits"],
      dynamic_axes := [("sequence", [(1, "sequence_steps")]),
                       ("text_embeddings", [(1, "text_tokens")])] },
    { name := "flow_lm_prefill", filename := "flow_lm_prefill.onnx",
      input_names := ["text_embeddings"],
      output_names := kvNames numKvLayers ++ ["offset"],
      dynamic_axes := ("text_embeddings", [(1, "text_tokens")]) ::
        (kvNames numKvLayers).map (fun n => (n, [(2, "text_tokens")])) },
    { name := "flow_lm_step", filename := "flow_lm_step.onnx",
      input_names := ["sequence_frame"] ++ kvNames numKvLayers ++ ["offset"],
      output_names := ["last_hidden", "eos_logits"] ++ kvNames numKvLayers ++ ["offset"],
      dynamic_axes := (kvNames numKvLayers).map (fun n => (n, [(2, "seq_len")])) },
    { name := "flow_lm_flow", filename := "flow_lm_flow.onnx",
      input_names := ["condition", "s", "t", "x"],
      output_names := ["flow_direction"],
      dynamic_axes := [] },
    { name := "latent_to_mimi", filename := "latent_to_mimi.onnx",
      input_names := ["latent"], output_names := ["mimi_latent"],
      dynamic_axes := [("latent", [(1, "latent_steps")]),
                       ("mimi_latent", [(2, "latent_steps")])] },
    { name := "mimi_encoder", filename := "mimi_encoder.onnx",
      input_names := ["audio"], output_names := ["latent"],
      dynamic_axes := [("audio", [(2, "audio_samples")]),
                       ("latent", [(2, "latent_steps")])] },
    { name := "mimi_decoder", filename := "mimi_decoder.onnx",
      input_names := ["latent"], output_names := ["audio"],
      dynamic_axes := [("latent", [(2, "latent_steps")]),
                       ("audio", [(2, "audio_samples")])] } ]

/-- The CLI arguments of `main`. -/
structure Args where
  models_dir : String
  out_dir : String
  variant : String
  int8 : Bool
  max_seq : Nat
deriving DecidableEq, Repr

/-- Everything the pipeline obtains from outside the script: presence of
the models dir and of the onnxruntime quantization module, the loaded
model's KV-layer count, the onnx `DataType.Name(...).lower()` table, and
the dtypes/dims/sizes the external tracer and quantizer produce. -/
structure Env where
  modelsDirExists : Bool
  ortQuantAvailable : Bool
  numKvLayers : Nat
  dtypeName : Nat → String
  inDtype : String → String → Nat
  outDtype : String → String → Nat
  inDims : String → String → List OnnxDim
  outDims : String → String → List OnnxDim
  exportSize : String → Nat
  quantSize : OnnxFile → Nat

/-- `out_dir / base` as a path string. -/
def pathStr (dir base : String) : String := dir ++ "/" ++ base

/-- `pathlib` stem of a file name: everything before the last dot, when a
dot exists at a positive index (a leading dot starts no suffix). -/
def stemOf (base : String) : String :=
  let cs := base.data
  let dotIdxs := (List.range cs.length).filter fun i =>
    decide (cs.getD i ' ' = '.') && decide (0 < i)
  match dotIdxs.getLast? with
  | some i => String.mk (cs.take i)
  | none => base

/-- `path.with_suffix(suffix)` applied to the final path component. -/
def withSuffixName (base suffix : String) : String :=
  stemOf base ++ suffix

/-- A Python exception terminating the run. -/
inductive PyErr where
  | systemExit : String → PyErr
  | runtimeError : String → PyErr
deriving DecidableEq, Repr

/-- The module-level import guard: `import onnx` wrapped in
`try/except` raising `SystemExit` with an installation message. -/
def importGuard (onnxAvailable : Bool) : Except PyErr Unit :=
  if onnxAvailable then Except.ok ()
  else Except.error (PyErr.systemExit
    ("onnx package is required for export_onnx.py. " ++
     "Install it in the selected python environment."))

/-- Modelled from the spec: `torch.onnx.export` (an external library)
traces the wrapper and writes a graph whose declared inputs/outputs carry
exactly the spec's `input_names`/`output_names`, in order — the spec's
"declared input/output tensor names in the manifest match the export
specification".  Element types, dims and file size come from the
environment. -/
def tracedFile (env : Env) (spec : SpecMeta) : OnnxFile :=
  { inputs := spec.input_names.map fun n =>
      ⟨n, env.inDtype spec.name n, env.inDims spec.name n⟩
    outputs := spec.output_names.map fun n =>
      ⟨n, env.outDtype spec.name n, env.outDims spec.name n⟩
    size := env.exportSize spec.name }

/-- Modelled from the spec: `onnxruntime.quantization.quantize_dynamic`
(an external library) rewrites the weights "without changing declared
shapes" — the declared inputs and outputs are preserved, only the payload
size changes. -/
def quantizedFile (env : Env) (f : OnnxFile) : OnnxFile :=
  { f with size := env.quantSize f }

/-- `quantize_int8(path)`: guard the `onnxruntime.quantization` import
(raising with an installation message when missing), call
`quantize_dynamic(path, tmp)` with `tmp = path.with_suffix(".int8.tmp.onnx")`
— overwriting anything at `tmp` — then `shutil.move(tmp, path)`, which
re-writes `path` and removes `tmp`. -/
def quantize_int8 (env : Env) (fs : FS) (dir base : String) : Except PyErr FS :=
  if env.ortQuantAvailable then
    let path := pathStr dir base
    let tmp := pathStr dir (withSuffixName base ".int8.tmp.onnx")
    match dictLookup fs path with
    | some (FileContent.onnx f) =>
      let q := FileContent.onnx (quantizedFile env f)
      let fs1 := dictInsert fs tmp q
      Except.ok (dictRemove (dictInsert fs1 path q) tmp)
    | _ => Except.error (PyErr.runtimeError ("quantize_dynamic: cannot read " ++ path))
  else
    Except.error (PyErr.runtimeError
      ("--int8 requested but onnxruntime quantization is unavailable; " ++
       "install onnxruntime in the selected python environment"))

/-- The entry `inspect_onnx` records for one `ValueInfoProto`. -/
def toIOEntry (env : Env) (v : ValueInfo) : IOEntry :=
  { name := v.name
    dtype := env.dtypeName v.elem_type
    shape := tensor_shape_to_json v.dims }

/-- `inspect_onnx(path)`: load the graph and record `path.name` plus
name/dtype/shape of every declared input and output. -/
def inspect_onnx (env : Env) (fs : FS) (dir base : String) : Except PyErr GraphInfo :=
  match dictLookup fs (pathStr dir base) with
  | some (FileContent.onnx f) =>
    Except.ok { filename := base
                inputs := f.inputs.map (toIOEntry env)
                outputs := f.outputs.map (toIOEntry env) }
  | _ => Except.error (PyErr.runtimeError ("onnx.load: cannot read " ++ pathStr dir base))

/-- Observable actions of a run, in order. -/
inductive Event where
  | mkdirOut : String → Event
  | loadModel : String → Event
  | exported : String → String → Event
  | quantized : String → Event
  | inspected : String → Event
  | wroteManifest : String → Event
deriving DecidableEq, Repr

/-- One iteration of `main`'s `for spec in specs` loop: `export_one`
(write the traced graph at `out_dir / spec.filename`), optional
`quantize_int8`, the `stat` for `size_bytes`, `inspect_onnx`, and the
manifest entry `{name, size_bytes, **inspect_onnx(out_path)}`.  Returns
the action trace, the file system afterwards (also on failure), and the
manifest entry or the uncaught exception. -/
def inspectAndEntry (env : Env) (args : Args) (fs2 : FS) (spec : SpecMeta)
    (ev2 : List Event) : List Event × FS × Except PyErr GraphEntry :=
  let path := pathStr args.out_dir spec.filename
  match dictLookup fs2 path with
  | some (FileContent.onnx f2) =>
    match inspect_onnx env fs2 args.out_dir spec.filename with
    | Except.error e => (ev2, fs2, Except.error e)
    | Except.ok info =>
      (ev2 ++ [Event.inspected path], fs2,
       Except.ok { name := spec.name
                   size_bytes := f2.size
                   filename := info.filename
                   inputs := info.inputs
                   outputs := info.outputs })
  | _ => (ev2, fs2, Except.error (PyErr.runtimeError ("stat: cannot stat " ++ path)))

def processSpec (env : Env) (args : Args) (fs : FS) (spec : SpecMeta) :
    List Event × FS × Except PyErr GraphEntry :=
  let path := pathStr args.out_dir spec.filename
  let fs1 := dictInsert fs path (FileContent.onnx (tracedFile env spec))
  match (if args.int8 then quantize_int8 env fs1 args.out_dir spec.filename
         else Except.ok fs1) with
  | Except.error e => ([Event.exported spec.name path], fs1, Except.error e)
  | Except.ok fs2 =>
    inspectAndEntry env args fs2 spec
      ([Event.exported spec.name path] ++
        (if args.int8 then [Event.quantized path] else []))

/-- `main`'s export loop: process each spec in order, accumulating entries
for `manifest["graphs"]`; an exception aborts the run. -/
def exportLoop (env : Env) (args : Args) :
    List SpecMeta → FS → List Event × FS × Except PyErr (List GraphEntry)
  | [], fs => ([], fs, Except.ok [])
  | spec :: rest, fs =>
    let r := processSpec env args fs spec
    match r.2.2 with
    | Except.error e => (r.1, r.2.1, Except.error e)
    | Except.ok entry =>
      let res := exportLoop env args rest r.2.1
      (r.1 ++ res.1, res.2.1,
       match res.2.2 with
       | Except.error e => Except.error e
       | Except.ok entries => Except.ok (entry :: entries))

/-- `main()`: after argument parsing, `out_dir.mkdir(parents=True,
exist_ok=True)`, then the models-dir existence check (raising
`SystemExit` naming the directory), then model loading, the export loop
over `build_specs`, and finally one write of `manifest.json` into
`out_dir`.  Returns the action trace, the final file system (also at a
fatal exit), and the manifest or the exception. -/
def main (env : Env) (args : Args) (fs0 : FS) :
    List Event × FS × Except PyErr Manifest :=
  if env.modelsDirExists then
    let specs := build_specs env.numKvLayers
    let res := exportLoop env args specs fs0
    match res.2.2 with
    | Except.error e =>
      ([Event.mkdirOut args.out_dir, Event.loadModel args.variant] ++ res.1,
       res.2.1, Except.error e)
    | Except.ok entries =>
      let manifest : Manifest :=
        { variant := args.variant, int8 := args.int8, graphs := entries }
      let manifestPath := pathStr args.out_dir "manifest.json"
      ([Event.mkdirOut args.out_dir, Event.loadModel args.variant] ++ res.1 ++
         [Event.wroteManifest manifestPath],
       dictInsert res.2.1 manifestPath (FileContent.manifestJson manifest),
       Except.ok manifest)
  else
    ([Event.mkdirOut args.out_dir], fs0,
     Except.error (PyErr.systemExit ("models-dir does not exist: " ++ args.models_dir)))

end Pipeline

section AssocDictLemmas

variable {α : Type}

theorem dictLookup_map_update_of_any (d : List (String × α)) (k : String) (v : α)
    (h : d.any (fun p => decide (p.1 = k)) = true) :
    dictLookup (d.map (fun p => if p.1 = k then (k, v) else p)) k = some v := by
  induction d with
  | nil => simp at h
  | cons p rest ih =>
    obtain ⟨a, b⟩ := p
    by_cases ha : a = k
    · rw [List.map_cons, if_pos (show (a, b).1 = k from ha)]
      simp [dictLookup]
    · rw [List.map_cons, if_neg (show ¬ (a, b).1 = k from ha)]
      simp only [List.any_cons, Bool.or_eq_true, decide_eq_true_eq] at h
      rcases h with h | h
      · exact absurd h ha
      · simp only [dictLookup, if_neg ha]
        exact ih h

theorem dictLookup_map_update_ne (d : List (String × α)) (k : String) (v : α)
    (k' : String) (h : k' ≠ k) :
    dictLookup (d.map (fun p => if p.1 = k then (k, v) else p)) k'
      = dictLookup d k' := by
  induction d with
  | nil => rfl
  | cons p rest ih =>
    obtain ⟨a, b⟩ := p
    by_cases ha : a = k
    · rw [List.map_cons, if_pos (show (a, b).1 = k from ha)]
      simp only [dictLookup, if_neg (Ne.symm h),
        if_neg (show ¬ a = k' from fun hc => (Ne.symm h) (ha ▸ hc))]
      exact ih
    · rw [List.map_cons, if_neg (show ¬ (a, b).1 = k from ha)]
      simp only [dictLookup]
      by_cases ha' : a = k'
      · rw [if_pos ha', if_pos ha']
      · rw [if_neg ha', if_neg ha']
        exact ih

theorem dictLookup_append_single_ne (d : List (String × α)) (k : String) (v : α)
    (k' : String) (h : k' ≠ k) :
    dictLookup (d ++ [(k, v)]) k' = dictLookup d k' := by
  induction d with
  | nil =>
    simp only [List.nil_append, dictLookup, if_neg (Ne.symm h)]
  | cons p rest ih =>
    obtain ⟨a, b⟩ := p
    rw [List.cons_append]
    simp only [dictLookup]
    by_cases ha : a = k'
    · rw [if_pos ha, if_pos ha]
    · rw [if_neg ha, if_neg ha]
      exact ih

theorem dictLookup_insert_self (d : List (String × α)) (k : String) (v : α) :
    dictLookup (dictInsert d k v) k = some v := by
  unfold dictInsert
  by_cases h : d.any (fun p => decide (p.1 = k)) = true
  · rw [if_pos h]
    exact dictLookup_map_update_of_any d k v h
  · rw [if_neg h]
    have hk : k ∉ dictKeys d :=
      (dictAny_eq_false_iff d k).mp (Bool.not_eq_true _ ▸ h)
    rw [dictLookup_append_of_not_mem _ _ _ hk]
    simp [dictLookup]

theorem dictLookup_insert_ne (d : List (String × α)) (k : String) (v : α)
    (k' : String) (h : k' ≠ k) :
    dictLookup (dictInsert d k v) k' = dictLookup d k' := by
  unfold dictInsert
  by_cases hA : d.any (fun p => decide (p.1 = k)) = true
  · rw [if_pos hA]
    exact dictLookup_map_update_ne d k v k' h
  · rw [if_neg hA]
    exact dictLookup_append_single_ne d k v k' h

theorem dictLookup_remove_self (d : List (String × α)) (k : String) :
    dictLookup (dictRemove d k) k = none := by
  induction d with
  | nil => rfl
  | cons p rest ih =>
    obtain ⟨a, b⟩ := p
    unfold dictRemove at ih ⊢
    rw [List.filter_cons]
    by_cases ha : a = k
    · rw [if_neg (by simp [ha])]
      exact ih
    · rw [if_pos (by simp [ha])]
      simp only [dictLookup, if_neg ha]
      exact ih

theorem dictLookup_remove_ne (d : List (String × α)) (k k' : String) (h : k' ≠ k) :
    dictLookup (dictRemove d k) k' = dictLookup d k' := by
  induction d with
  | nil => rfl
  | cons p rest ih =>
    obtain ⟨a, b⟩ := p
    unfold dictRemove at ih ⊢
    rw [List.filter_cons]
    by_cases ha : a = k
    · rw [if_neg (by simp [ha])]
      rw [ih]
      simp only [dictLookup,
        if_neg (show ¬ a = k' from fun hc => h ((ha ▸ hc).symm))]
    · rw [if_pos (by simp [ha])]
      simp only [dictLookup]
      by_cases ha' : a = k'
      · rw [if_pos ha', if_pos ha']
      · rw [if_neg ha', if_neg ha']
        exact ih

end AssocDictLemmas

namespace Pipeline

/-- The temporary path's final component used by `quantize_int8`:
`path.with_suffix(".int8.tmp.onnx").name`. -/
def tmpName (base : String) : String := withSuffixName base ".int8.tmp.onnx"

/-- The slice of the action trace one spec contributes. -/
def eventsFor (args : Args) (spec : SpecMeta) : List Event :=
  [Event.exported spec.name (pathStr args.out_dir spec.filename)] ++
  (if args.int8 then [Event.quantized (pathStr args.out_dir spec.filename)] else []) ++
  [Event.inspected (pathStr args.out_dir spec.filename)]

/-- The correspondence C5 requires between one manifest entry and its
export spec: same graph name and filename, and the listed input/output
tensor names equal the spec's `input_names`/`output_names`. -/
def entryMatches (g : GraphEntry) (s : SpecMeta) : Prop :=
  g.name = s.name ∧ g.filename = s.filename ∧
  g.inputs.map (fun e => e.name) = s.input_names ∧
  g.outputs.map (fun e => e.name) = s.output_names

/-- Recognizes the manifest-write action. -/
def isWroteManifest : Event → Bool
  | Event.wroteManifest _ => true
  | _ => false

theorem pathStr_ne_of_base_ne (dir a b : String) (h : a ≠ b) :
    pathStr dir a ≠ pathStr dir b := by
  intro hc
  apply h
  have hd := congrArg String.data hc
  simp only [pathStr, String.data_append] at hd
  exact String.ext (List.append_cancel_left hd)

theorem quantize_int8_ok (env : Env) (fs : FS) (dir base : String) (f : OnnxFile)
    (hq : env.ortQuantAvailable = true)
    (hf : dictLookup fs (pathStr dir base) = some (FileContent.onnx f)) :
    quantize_int8 env fs dir base =
      Except.ok (dictRemove
        (dictInsert
          (dictInsert fs (pathStr dir (tmpName base))
            (FileContent.onnx (quantizedFile env f)))
          (pathStr dir base) (FileContent.onnx (quantizedFile env f)))
        (pathStr dir (tmpName base))) := by
  simp [quantize_int8, tmpName, hq, hf]

theorem quantize_int8_unavailable (env : Env) (fs : FS) (dir base : String)
    (hqa : env.ortQuantAvailable = false) :
    quantize_int8 env fs dir base = Except.error (PyErr.runtimeError
      ("--int8 requested but onnxruntime quantization is unavailable; " ++
       "install onnxruntime in the selected python environment")) := by
  simp [quantize_int8, hqa]

theorem inspectAndEntry_fs (env : Env) (args : Args) (fs2 : FS) (spec : SpecMeta)
    (ev2 : List Event) : (inspectAndEntry env args fs2 spec ev2).2.1 = fs2 := by
  rcases hcase : dictLookup fs2 (pathStr args.out_dir spec.filename) with _ | c
  · simp [inspectAndEntry, hcase]
  · cases c with
    | onnx f2 =>
      rcases hins : inspect_onnx env fs2 args.out_dir spec.filename with e | info
      · simp [inspectAndEntry, hcase, hins]
      · simp [inspectAndEntry, hcase, hins]
    | manifestJson m => simp [inspectAndEntry, hcase]

theorem inspectAndEntry_ok (env : Env) (args : Args) (fs2 : FS) (spec : SpecMeta)
    (ev2 : List Event) (f2 : OnnxFile)
    (hlook : dictLookup fs2 (pathStr args.out_dir spec.filename) =
      some (FileContent.onnx f2)) :
    inspectAndEntry env args fs2 spec ev2 =
      (ev2 ++ [Event.inspected (pathStr args.out_dir spec.filename)], fs2,
       Except.ok { name := spec.name
                   size_bytes := f2.size
                   filename := spec.filename
                   inputs := f2.inputs.map (toIOEntry env)
                   outputs := f2.outputs.map (toIOEntry env) }) := by
  simp [inspectAndEntry, inspect_onnx, hlook]

theorem processSpec_ok (env : Env) (args : Args) (fs : FS) (spec : SpecMeta)
    (hq : args.int8 = true → env.ortQuantAvailable = true)
    (hsep : spec.filename ≠ tmpName spec.filename) :
    ∃ fs2 f2,
      processSpec env args fs spec =
        (eventsFor args spec, fs2,
         Except.ok { name := spec.name
                     size_bytes := f2.size
                     filename := spec.filename
                     inputs := f2.inputs.map (toIOEntry env)
                     outputs := f2.outputs.map (toIOEntry env) }) ∧
      dictLookup fs2 (pathStr args.out_dir spec.filename) =
        some (FileContent.onnx f2) ∧
      f2.inputs = (tracedFile env spec).inputs ∧
      f2.outputs = (tracedFile env spec).outputs ∧
      (∀ p, p ≠ pathStr args.out_dir spec.filename →
        p ≠ pathStr args.out_dir (tmpName spec.filename) →
        dictLookup fs2 p = dictLookup fs p) := by
  have hlook1 : dictLookup
      (dictInsert fs (pathStr args.out_dir spec.filename)
        (FileContent.onnx (tracedFile env spec)))
      (pathStr args.out_dir spec.filename) =
      some (FileContent.onnx (tracedFile env spec)) :=
    dictLookup_insert_self _ _ _
  by_cases h8 : args.int8 = true
  · have hqa := hq h8
    have hqeq := quantize_int8_ok env
      (dictInsert fs (pathStr args.out_dir spec.filename)
        (FileContent.onnx (tracedFile env spec)))
      args.out_dir spec.filename (tracedFile env spec) hqa hlook1
    have hPT : pathStr args.out_dir spec.filename ≠
        pathStr args.out_dir (tmpName spec.filename) :=
      pathStr_ne_of_base_ne _ _ _ hsep
    have hlook2 : dictLookup
        (dictRemove
          (dictInsert
            (dictInsert
              (dictInsert fs (pathStr args.out_dir spec.filename)
                (FileContent.onnx (tracedFile env spec)))
              (pathStr args.out_dir (tmpName spec.filename))
              (FileContent.onnx (quantizedFile env (tracedFile env spec))))
            (pathStr args.out_dir spec.filename)
            (FileContent.onnx (quantizedFile env (tracedFile env spec))))
          (pathStr args.out_dir (tmpName spec.filename)))
        (pathStr args.out_dir spec.filename) =
        some (FileContent.onnx (quantizedFile env (tracedFile env spec))) := by
      rw [dictLookup_remove_ne _ _ _ hPT, dictLookup_insert_self]
    refine ⟨_, quantizedFile env (tracedFile env spec), ?_, hlook2, rfl, rfl, ?_⟩
    · simp only [processSpec, h8, if_true, hqeq]
      rw [inspectAndEntry_ok env args _ spec _ _ hlook2]
      simp [eventsFor, h8]
    · intro p hp1 hp2
      rw [dictLookup_remove_ne _ _ _ hp2, dictLookup_insert_ne _ _ _ _ hp1,
        dictLookup_insert_ne _ _ _ _ hp2, dictLookup_insert_ne _ _ _ _ hp1]
  · have h8' : args.int8 = false := Bool.eq_false_iff.mpr h8
    refine ⟨_, tracedFile env spec, ?_, hlook1, rfl, rfl, ?_⟩
    · simp only [processSpec, h8', Bool.false_eq_true, if_false]
      rw [inspectAndEntry_ok env args _ spec _ _ hlook1]
      simp [eventsFor, h8']
    · intro p hp1 _
      rw [dictLookup_insert_ne _ _ _ _ hp1]

theorem processSpec_frame (env : Env) (args : Args) (fs : FS) (spec : SpecMeta)
    (p : String)
    (h1 : p ≠ pathStr args.out_dir spec.filename)
    (h2 : p ≠ pathStr args.out_dir (tmpName spec.filename)) :
    dictLookup (processSpec env args fs spec).2.1 p = dictLookup fs p := by
  have hfs1p : dictLookup
      (dictInsert fs (pathStr args.out_dir spec.filename)
        (FileContent.onnx (tracedFile env spec))) p = dictLookup fs p :=
    dictLookup_insert_ne _ _ _ _ h1
  by_cases h8 : args.int8 = true
  · by_cases hqa : env.ortQuantAvailable = true
    · have hqeq := quantize_int8_ok env
        (dictInsert fs (pathStr args.out_dir spec.filename)
          (FileContent.onnx (tracedFile env spec)))
        args.out_dir spec.filename (tracedFile env spec) hqa
        (dictLookup_insert_self _ _ _)
      simp only [processSpec, h8, if_true, hqeq, inspectAndEntry_fs]
      rw [dictLookup_remove_ne _ _ _ h2, dictLookup_insert_ne _ _ _ _ h1,
        dictLookup_insert_ne _ _ _ _ h2, hfs1p]
    · have hqa' : env.ortQuantAvailable = false := Bool.eq_false_iff.mpr hqa
      simp only [processSpec, h8, if_true, quantize_int8_unavailable env _ _ _ hqa']
      exact hfs1p
  · have h8' : args.int8 = false := Bool.eq_false_iff.mpr h8
    simp only [processSpec, h8', Bool.false_eq_true, if_false, inspectAndEntry_fs]
    exact hfs1p

theorem exportLoop_frame (env : Env) (args : Args) :
    ∀ (specs : List SpecMeta) (fs : FS) (p : String),
    (∀ s ∈ specs, p ≠ pathStr args.out_dir s.filename ∧
        p ≠ pathStr args.out_dir (tmpName s.filename)) →
    dictLookup (exportLoop env args specs fs).2.1 p = dictLookup fs p := by
  intro specs
  induction specs with
  | nil => intro fs p _; rfl
  | cons spec rest ih =>
    intro fs p hp
    obtain ⟨hp1, hp2⟩ := hp spec (List.mem_cons_self _ _)
    have hps := processSpec_frame env args fs spec p hp1 hp2
    rcases hr : (processSpec env args fs spec).2.2 with e | entry
    · simp only [exportLoop, hr]
      exact hps
    · simp only [exportLoop, hr]
      rw [ih (processSpec env args fs spec).2.1 p
        (fun s hs => hp s (List.mem_cons_of_mem _ hs))]
      exact hps

theorem forall₂_map_eq {α β γ : Type} (R : α → β → Prop) (f : α → γ) (g : β → γ) :
    ∀ {l1 : List α} {l2 : List β}, List.Forall₂ R l1 l2 →
    (∀ a b, R a b → f a = g b) → l1.map f = l2.map g := by
  intro l1 l2 h hfg
  induction h with
  | nil => rfl
  | cons hab _ ih => simp only [List.map_cons, hfg _ _ hab, ih]

theorem exportLoop_ok (env : Env) (args : Args)
    (hq : args.int8 = true → env.ortQuantAvailable = true) :
    ∀ (specs : List SpecMeta) (fs : FS),
    (∀ s ∈ specs, s.filename ≠ tmpName s.filename) →
    List.Pairwise (fun s s' => s.filename ≠ s'.filename ∧
        s.filename ≠ tmpName s'.filename) specs →
    ∃ fsF entries,
      exportLoop env args specs fs =
        (specs.flatMap (eventsFor args), fsF, Except.ok entries) ∧
      List.Forall₂ entryMatches entries specs ∧
      (∀ s ∈ specs, ∃ f, dictLookup fsF (pathStr args.out_dir s.filename) =
          some (FileContent.onnx f) ∧
        f.inputs.map (fun v => v.name) = s.input_names ∧
        f.outputs.map (fun v => v.name) = s.output_names) := by
  intro specs
  induction specs with
  | nil =>
    intro fs _ _
    exact ⟨fs, [], rfl, List.Forall₂.nil, fun s hs => absurd hs (List.not_mem_nil s)⟩
  | cons spec rest ih =>
    intro fs hsep hpw
    obtain ⟨fs2, f2, hproc, hlook2, hin, hout, _⟩ :=
      processSpec_ok env args fs spec hq (hsep spec (List.mem_cons_self _ _))
    obtain ⟨hpwhead, hpwtail⟩ := List.pairwise_cons.mp hpw
    obtain ⟨fsF, entries, hloop, hmatch, hfiles⟩ :=
      ih fs2 (fun s hs => hsep s (List.mem_cons_of_mem _ hs)) hpwtail
    have hnames_in : f2.inputs.map (fun v => v.name) = spec.input_names := by
      rw [hin]
      simp [tracedFile, List.map_map, Function.comp_def]
    have hnames_out : f2.outputs.map (fun v => v.name) = spec.output_names := by
      rw [hout]
      simp [tracedFile, List.map_map, Function.comp_def]
    have hfsF : fsF = (exportLoop env args rest fs2).2.1 := by rw [hloop]
    refine ⟨fsF,
      ({ name := spec.name
         size_bytes := f2.size
         filename := spec.filename
         inputs := f2.inputs.map (toIOEntry env)
         outputs := f2.outputs.map (toIOEntry env) } : GraphEntry) :: entries, ?_, ?_, ?_⟩
    · have hr2 : (processSpec env args fs spec).2.2 =
          Except.ok { name := spec.name
                      size_bytes := f2.size
                      filename := spec.filename
                      inputs := f2.inputs.map (toIOEntry env)
                      outputs := f2.outputs.map (toIOEntry env) } := by
        rw [hproc]
      simp only [exportLoop, hr2, hproc, hloop, List.flatMap_cons]
    · refine List.Forall₂.cons ⟨rfl, rfl, ?_, ?_⟩ hmatch
      · simp only [List.map_map]
        simpa [Function.comp_def, toIOEntry] using hnames_in
      · simp only [List.map_map]
        simpa [Function.comp_def, toIOEntry] using hnames_out
    · intro s hs
      rcases List.mem_cons.mp hs with rfl | hs'
      · refine ⟨f2, ?_, hnames_in, hnames_out⟩
        rw [hfsF, exportLoop_frame env args rest fs2 _ ?_, hlook2]
        intro s' hs'
        obtain ⟨hne1, hne2⟩ := hpwhead s' hs'
        exact ⟨pathStr_ne_of_base_ne _ _ _ hne1, pathStr_ne_of_base_ne _ _ _ hne2⟩
      · exact hfiles s hs'

theorem build_specs_filenames (n : Nat) :
    (build_specs n).map (fun s => s.filename) =
      ["text_conditioner.onnx", "flow_lm_main.onnx", "flow_lm_prefill.onnx",
       "flow_lm_step.onnx", "flow_lm_flow.onnx", "latent_to_mimi.onnx",
       "mimi_encoder.onnx", "mimi_decoder.onnx"] := rfl

theorem build_specs_names (n : Nat) :
    (build_specs n).map (fun s => s.name) =
      ["text_conditioner", "flow_lm_main", "flow_lm_prefill", "flow_lm_step",
       "flow_lm_flow", "latent_to_mimi", "mimi_encoder", "mimi_decoder"] := rfl

theorem build_specs_sep (n : Nat) :
    ∀ s ∈ build_specs n, s.filename ≠ tmpName s.filename := by
  intro s hs
  have hmem : s.filename ∈ (build_specs n).map (fun s => s.filename) :=
    List.mem_map_of_mem _ hs
  rw [build_specs_filenames n] at hmem
  simp only [List.mem_cons, List.not_mem_nil, or_false] at hmem
  rcases hmem with h|h|h|h|h|h|h|h <;> rw [h] <;> decide

theorem build_specs_pairwise (n : Nat) :
    List.Pairwise (fun s s' : SpecMeta => s.filename ≠ s'.filename ∧
      s.filename ≠ tmpName s'.filename) (build_specs n) := by
  have h : List.Pairwise (fun a b : String => a ≠ b ∧ a ≠ tmpName b)
      ((build_specs n).map (fun s => s.filename)) := by
    rw [build_specs_filenames n]
    decide
  exact List.pairwise_map.mp h

theorem build_specs_not_manifest (n : Nat) :
    ∀ s ∈ build_specs n, s.filename ≠ "manifest.json" := by
  intro s hs
  have hmem : s.filename ∈ (build_specs n).map (fun s => s.filename) :=
    List.mem_map_of_mem _ hs
  rw [build_specs_filenames n] at hmem
  simp only [List.mem_cons, List.not_mem_nil, or_false] at hmem
  rcases hmem with h|h|h|h|h|h|h|h <;> rw [h] <;> decide

/-- Claim C4: after a successful run of `main`, the manifest's `graphs`
list contains exactly one entry per declared sub-graph, in export order —
text_conditioner, flow_lm_main, flow_lm_prefill, flow_lm_step,
flow_lm_flow, latent_to_mimi, mimi_encoder, mimi_decoder — and no
others. -/
theorem C4_manifest_lists_declared_graphs
    (env : Env) (args : Args) (fs0 : FS)
    (hm : env.modelsDirExists = true)
    (hq : args.int8 = true → env.ortQuantAvailable = true) :
    ∃ m, (main env args fs0).2.2 = Except.ok m ∧
      m.graphs.map (fun g => g.name) =
        ["text_conditioner", "flow_lm_main", "flow_lm_prefill", "flow_lm_step",
         "flow_lm_flow", "latent_to_mimi", "mimi_encoder", "mimi_decoder"] := by
  obtain ⟨fsF, entries, hloop, hmatch, _⟩ :=
    exportLoop_ok env args hq (build_specs env.numKvLayers) fs0
      (build_specs_sep _) (build_specs_pairwise _)
  refine ⟨{ variant := args.variant, int8 := args.int8, graphs := entries }, ?_, ?_⟩
  · have hres : (exportLoop env args (build_specs env.numKvLayers) fs0).2.2 =
        Except.ok entries := by
      rw [hloop]
    simp only [main, hm, if_true, hres]
  · have hmap := forall₂_map_eq entryMatches (fun g => g.name) (fun s => s.name)
      hmatch (fun a b hab => hab.1)
    rw [hmap, build_specs_names]

/-- Claim C5: the manifest written by `main` carries top-level `variant`
(the `--variant` argument), `int8` (the `--int8` boolean) and `graphs`;
every graph entry carries `name`, `filename`, `size_bytes`, `inputs`,
`outputs` and every i/o entry `name`, `dtype`, `shape` (by construction
of the `Manifest`/`GraphEntry`/`IOEntry` records); and for every graph
the input and output tensor names in the manifest equal the
`input_names`/`output_names` of that graph's `ExportSpec`. -/
theorem C5_manifest_fields_and_names
    (env : Env) (args : Args) (fs0 : FS)
    (hm : env.modelsDirExists = true)
    (hq : args.int8 = true → env.ortQuantAvailable = true) :
    ∃ m, (main env args fs0).2.2 = Except.ok m ∧
      m.variant = args.variant ∧ m.int8 = args.int8 ∧
      List.Forall₂ entryMatches m.graphs (build_specs env.numKvLayers) := by
  obtain ⟨fsF, entries, hloop, hmatch, _⟩ :=
    exportLoop_ok env args hq (build_specs env.numKvLayers) fs0
      (build_specs_sep _) (build_specs_pairwise _)
  refine ⟨{ variant := args.variant, int8 := args.int8, graphs := entries },
    ?_, rfl, rfl, hmatch⟩
  have hres : (exportLoop env args (build_specs env.numKvLayers) fs0).2.2 =
      Except.ok entries := by
    rw [hloop]
  simp only [main, hm, if_true, hres]

theorem filter_isWM_eventsFor (args : Args) (s : SpecMeta) :
    (eventsFor args s).filter isWroteManifest = [] := by
  by_cases h8 : args.int8 = true
  · simp [eventsFor, isWroteManifest, h8]
  · simp [eventsFor, isWroteManifest, Bool.eq_false_iff.mpr h8]

theorem filter_isWM_flatMap (args : Args) :
    ∀ specs : List SpecMeta,
    (specs.flatMap (eventsFor args)).filter isWroteManifest = [] := by
  intro specs
  induction specs with
  | nil => rfl
  | cons s rest ih =>
    rw [List.flatMap_cons, List.filter_append, filter_isWM_eventsFor, ih]
    rfl

/-- Claim C7: on every successful run, each declared sub-graph produces an
output file at `out_dir/spec.filename`; the actions happen in pipeline
order — load model, then per graph export → optional quantization →
inspection → manifest accumulation — and `manifest.json` is written to
`out_dir` exactly once, after all graphs are processed (it is the last
action). -/
theorem C7_pipeline_order_and_outputs
    (env : Env) (args : Args) (fs0 : FS)
    (hm : env.modelsDirExists = true)
    (hq : args.int8 = true → env.ortQuantAvailable = true) :
    ∃ fsM m,
      main env args fs0 =
        ([Event.mkdirOut args.out_dir, Event.loadModel args.variant] ++
          (build_specs env.numKvLayers).flatMap (eventsFor args) ++
          [Event.wroteManifest (pathStr args.out_dir "manifest.json")],
         fsM, Except.ok m) ∧
      (∀ s ∈ build_specs env.numKvLayers, ∃ f,
        dictLookup fsM (pathStr args.out_dir s.filename) =
          some (FileContent.onnx f)) ∧
      dictLookup fsM (pathStr args.out_dir "manifest.json") =
        some (FileContent.manifestJson m) ∧
      (main env args fs0).1.filter isWroteManifest =
        [Event.wroteManifest (pathStr args.out_dir "manifest.json")] ∧
      (main env args fs0).1.getLast? =
        some (Event.wroteManifest (pathStr args.out_dir "manifest.json")) := by
  obtain ⟨fsF, entries, hloop, hmatch, hfiles⟩ :=
    exportLoop_ok env args hq (build_specs env.numKvLayers) fs0
      (build_specs_sep _) (build_specs_pairwise _)
  have hmain : main env args fs0 =
      ([Event.mkdirOut args.out_dir, Event.loadModel args.variant] ++
        (build_specs env.numKvLayers).flatMap (eventsFor args) ++
        [Event.wroteManifest (pathStr args.out_dir "manifest.json")],
       dictInsert fsF (pathStr args.out_dir "manifest.json")
         (FileContent.manifestJson
           { variant := args.variant, int8 := args.int8, graphs := entries }),
       Except.ok { variant := args.variant, int8 := args.int8, graphs := entries }) := by
    simp only [main, hm, if_true, hloop]
  refine ⟨_, _, hmain, ?_, ?_, ?_, ?_⟩
  · intro s hs
    obtain ⟨f, hf, _, _⟩ := hfiles s hs
    refine ⟨f, ?_⟩
    rw [dictLookup_insert_ne _ _ _ _
      (pathStr_ne_of_base_ne _ _ _ (build_specs_not_manifest _ s hs)), hf]
  · exact dictLookup_insert_self _ _ _
  · rw [hmain]
    simp only [List.filter_append, filter_isWM_flatMap]
    simp [isWroteManifest]
  · rw [hmain]
    exact List.getLast?_concat _

theorem processSpec_quant_unavailable (env : Env) (args : Args) (fs : FS)
    (spec : SpecMeta) (h8 : args.int8 = true)
    (hqa : env.ortQuantAvailable = false) :
    processSpec env args fs spec =
      ([Event.exported spec.name (pathStr args.out_dir spec.filename)],
       dictInsert fs (pathStr args.out_dir spec.filename)
         (FileContent.onnx (tracedFile env spec)),
       Except.error (PyErr.runtimeError
         ("--int8 requested but onnxruntime quantization is unavailable; " ++
          "install onnxruntime in the selected python environment"))) := by
  simp only [processSpec, h8, if_true, quantize_int8_unavailable env _ _ _ hqa]

theorem exportLoop_quant_unavailable (env : Env) (args : Args)
    (h8 : args.int8 = true) (hqa : env.ortQuantAvailable = false)
    (spec : SpecMeta) (rest : List SpecMeta) (fs : FS) :
    exportLoop env args (spec :: rest) fs =
      ([Event.exported spec.name (pathStr args.out_dir spec.filename)],
       dictInsert fs (pathStr args.out_dir spec.filename)
         (FileContent.onnx (tracedFile env spec)),
       Except.error (PyErr.runtimeError
         ("--int8 requested but onnxruntime quantization is unavailable; " ++
          "install onnxruntime in the selected python environment"))) := by
  have hps := processSpec_quant_unavailable env args fs spec h8 hqa
  have h22 : (processSpec env args fs spec).2.2 =
      Except.error (PyErr.runtimeError
        ("--int8 requested but onnxruntime quantization is unavailable; " ++
         "install onnxruntime in the selected python environment")) := by
    rw [hps]
  simp only [exportLoop, h22, hps]

/-- Claim C8: a missing required third-party package aborts the run with
an explanatory message: a missing `onnx` package raises `SystemExit` with
an installation message at import time, and a missing
`onnxruntime.quantization` with `--int8` raises at the first quantization
attempt with an installation message, before any manifest is written. -/
theorem C8_missing_packages_exit
    (env : Env) (args : Args) (fs0 : FS)
    (hm : env.modelsDirExists = true)
    (h8 : args.int8 = true)
    (hqa : env.ortQuantAvailable = false) :
    importGuard false = Except.error (PyErr.systemExit
      ("onnx package is required for export_onnx.py. " ++
       "Install it in the selected python environment.")) ∧
    (main env args fs0).2.2 = Except.error (PyErr.runtimeError
      ("--int8 requested but onnxruntime quantization is unavailable; " ++
       "install onnxruntime in the selected python environment")) ∧
    ∀ p, Event.wroteManifest p ∉ (main env args fs0).1 := by
  rcases hbs : build_specs env.numKvLayers with _ | ⟨s0, r0⟩
  · exact absurd hbs (by simp [build_specs])
  · have hloop := exportLoop_quant_unavailable env args h8 hqa s0 r0 fs0
    refine ⟨rfl, ?_, ?_⟩
    · simp only [main, hm, if_true, hbs, hloop]
    · intro p
      simp only [main, hm, if_true, hbs, hloop]
      simp

/-- Claim C9: when the `--models-dir` directory does not exist, `main`
raises `SystemExit` with a fatal message naming the directory before
loading the model; no graph file is exported, no manifest is written, and
the file system is untouched. -/
theorem C9_missing_models_dir
    (env : Env) (args : Args) (fs0 : FS)
    (hm : env.modelsDirExists = false) :
    main env args fs0 =
      ([Event.mkdirOut args.out_dir], fs0,
       Except.error (PyErr.systemExit
         ("models-dir does not exist: " ++ args.models_dir))) ∧
    (∀ v, Event.loadModel v ∉ (main env args fs0).1) ∧
    (∀ nm p, Event.exported nm p ∉ (main env args fs0).1) ∧
    (∀ p, Event.wroteManifest p ∉ (main env args fs0).1) ∧
    (main env args fs0).2.1 = fs0 := by
  have hmain : main env args fs0 =
      ([Event.mkdirOut args.out_dir], fs0,
       Except.error (PyErr.systemExit
         ("models-dir does not exist: " ++ args.models_dir))) := by
    simp [main, hm]
  refine ⟨hmain, ?_, ?_, ?_, ?_⟩
  · intro v
    rw [hmain]
    simp
  · intro nm p
    rw [hmain]
    simp
  · intro p
    rw [hmain]
    simp
  · rw [hmain]

/-- Claim C6 (amended): when `--int8` is requested, `quantize_int8`
replaces the graph file at its original path — so the filename later
recorded in the manifest is unchanged — and the declared inputs and
outputs (hence the declared shapes) of the file after quantization equal
those of the un-quantized export.  Besides the contents at that path, the
only other change is the temporary sibling `<stem>.int8.tmp.onnx`,
created during quantization and removed by the move (clobbering anything
previously at that temporary path). -/
theorem C6_quantize_replaces_in_place
    (env : Env) (fs : FS) (dir base : String) (f : OnnxFile)
    (hq : env.ortQuantAvailable = true)
    (hf : dictLookup fs (pathStr dir base) = some (FileContent.onnx f))
    (hsep : base ≠ tmpName base) :
    ∃ fs', quantize_int8 env fs dir base = Except.ok fs' ∧
      dictLookup fs' (pathStr dir base) =
        some (FileContent.onnx (quantizedFile env f)) ∧
      (quantizedFile env f).inputs = f.inputs ∧
      (quantizedFile env f).outputs = f.outputs ∧
      dictLookup fs' (pathStr dir (tmpName base)) = none ∧
      (∀ p, p ≠ pathStr dir base → p ≠ pathStr dir (tmpName base) →
        dictLookup fs' p = dictLookup fs p) := by
  have hPT : pathStr dir base ≠ pathStr dir (tmpName base) :=
    pathStr_ne_of_base_ne _ _ _ hsep
  refine ⟨_, quantize_int8_ok env fs dir base f hq hf, ?_, rfl, rfl, ?_, ?_⟩
  · rw [dictLookup_remove_ne _ _ _ hPT, dictLookup_insert_self]
  · exact dictLookup_remove_self _ _
  · intro p hp1 hp2
    rw [dictLookup_remove_ne _ _ _ hp2, dictLookup_insert_ne _ _ _ _ hp1,
      dictLookup_insert_ne _ _ _ _ hp2]

/-- Concrete environment and file system for the C6 counterexample and
witness. -/
def envW6 : Env :=
  { modelsDirExists := true, ortQuantAvailable := true, numKvLayers := 1,
    dtypeName := fun _ => "float", inDtype := fun _ _ => 1, outDtype := fun _ _ => 1,
    inDims := fun _ _ => [], outDims := fun _ _ => [], exportSize := fun _ => 10,
    quantSize := fun _ => 5 }

def fileW6 : OnnxFile := ⟨[⟨"latent", 1, [⟨"", 32⟩]⟩], [⟨"audio", 1, [⟨"", 8⟩]⟩], 10⟩

def junkW6 : OnnxFile := ⟨[], [], 3⟩

def fsW6 : FS :=
  [(pathStr "out" "x.onnx", FileContent.onnx fileW6),
   (pathStr "out" (tmpName "x.onnx"), FileContent.onnx junkW6)]

def fsW6b : FS := [(pathStr "out" "x.onnx", FileContent.onnx fileW6)]

/-- Counterexample to claim C6 as stated: with a stale file already
present at the temporary path `out/x.int8.tmp.onnx`, quantizing
`out/x.onnx` also deletes that stale file — a change at a path other
than the quantized file's own path, so "nothing other than the file's
contents at that path changes" fails. -/
theorem C6_frame_counterexample :
    (quantize_int8 envW6 fsW6 "out" "x.onnx").toOption.isSome = true ∧
    pathStr "out" (tmpName "x.onnx") ≠ pathStr "out" "x.onnx" ∧
    dictLookup fsW6 (pathStr "out" (tmpName "x.onnx")) ≠ none ∧
    dictLookup ((quantize_int8 envW6 fsW6 "out" "x.onnx").toOption.getD [])
      (pathStr "out" (tmpName "x.onnx")) = none := by
  decide

theorem C6_quantize_replaces_in_place_witness :
    (envW6.ortQuantAvailable = true) ∧
    (dictLookup fsW6b (pathStr "out" "x.onnx") = some (FileContent.onnx fileW6)) ∧
    ("x.onnx" ≠ tmpName "x.onnx") ∧
    (∃ fs', quantize_int8 envW6 fsW6b "out" "x.onnx" = Except.ok fs' ∧
      dictLookup fs' (pathStr "out" "x.onnx") =
        some (FileContent.onnx (quantizedFile envW6 fileW6)) ∧
      (quantizedFile envW6 fileW6).inputs = fileW6.inputs ∧
      (quantizedFile envW6 fileW6).outputs = fileW6.outputs ∧
      dictLookup fs' (pathStr "out" (tmpName "x.onnx")) = none ∧
      (∀ p, p ≠ pathStr "out" "x.onnx" → p ≠ pathStr "out" (tmpName "x.onnx") →
        dictLookup fs' p = dictLookup fsW6b p)) :=
  ⟨rfl, by decide, by decide,
   C6_quantize_replaces_in_place envW6 fsW6b "out" "x.onnx" fileW6 rfl
     (by decide) (by decide)⟩

/-- Concrete environment and arguments for the pipeline witnesses. -/
def envW4 : Env :=
  { modelsDirExists := true, ortQuantAvailable := false, numKvLayers := 2,
    dtypeName := fun _ => "float", inDtype := fun _ _ => 1, outDtype := fun _ _ => 1,
    inDims := fun _ _ => [⟨"", 4⟩], outDims := fun _ _ => [⟨"", 4⟩],
    exportSize := fun _ => 10, quantSize := fun _ => 5 }

def argsW4 : Args :=
  { models_dir := "models", out_dir := "out", variant := "b6369a24",
    int8 := false, max_seq := 256 }

theorem C4_manifest_lists_declared_graphs_witness :
    (envW4.modelsDirExists = true) ∧
    (argsW4.int8 = true → envW4.ortQuantAvailable = true) ∧
    (∃ m, (main envW4 argsW4 []).2.2 = Except.ok m ∧
      m.graphs.map (fun g => g.name) =
        ["text_conditioner", "flow_lm_main", "flow_lm_prefill", "flow_lm_step",
         "flow_lm_flow", "latent_to_mimi", "mimi_encoder", "mimi_decoder"]) :=
  ⟨rfl, by decide,
   C4_manifest_lists_declared_graphs envW4 argsW4 [] rfl (by decide)⟩

theorem C5_manifest_fields_and_names_witness :
    (envW4.modelsDirExists = true) ∧
    (argsW4.int8 = true → envW4.ortQuantAvailable = true) ∧
    (∃ m, (main envW4 argsW4 []).2.2 = Except.ok m ∧
      m.variant = argsW4.variant ∧ m.int8 = argsW4.int8 ∧
      List.Forall₂ entryMatches m.graphs (build_specs envW4.numKvLayers)) :=
  ⟨rfl, by decide,
   C5_manifest_fields_and_names envW4 argsW4 [] rfl (by decide)⟩

theorem C7_pipeline_order_and_outputs_witness :
    (envW4.modelsDirExists = true) ∧
    (argsW4.int8 = true → envW4.ortQuantAvailable = true) ∧
    (∃ fsM m,
      main envW4 argsW4 [] =
        ([Event.mkdirOut argsW4.out_dir, Event.loadModel argsW4.variant] ++
          (build_specs envW4.numKvLayers).flatMap (eventsFor argsW4) ++
          [Event.wroteManifest (pathStr argsW4.out_dir "manifest.json")],
         fsM, Except.ok m) ∧
      (∀ s ∈ build_specs envW4.numKvLayers, ∃ f,
        dictLookup fsM (pathStr argsW4.out_dir s.filename) =
          some (FileContent.onnx f)) ∧
      dictLookup fsM (pathStr argsW4.out_dir "manifest.json") =
        some (FileContent.manifestJson m) ∧
      (main envW4 argsW4 []).1.filter isWroteManifest =
        [Event.wroteManifest (pathStr argsW4.out_dir "manifest.json")] ∧
      (main envW4 argsW4 []).1.getLast? =
        some (Event.wroteManifest (pathStr argsW4.out_dir "manifest.json"))) :=
  ⟨rfl, by decide,
   C7_pipeline_order_and_outputs envW4 argsW4 [] rfl (by decide)⟩

def envW8 : Env :=
  { modelsDirExists := true, ortQuantAvailable := false, numKvLayers := 1,
    dtypeName := fun _ => "float", inDtype := fun _ _ => 1, outDtype := fun _ _ => 1,
    inDims := fun _ _ => [], outDims := fun _ _ => [],
    exportSize := fun _ => 10, quantSize := fun _ => 5 }

def argsW8 : Args :=
  { models_dir := "models", out_dir := "out", variant := "b6369a24",
    int8 := true, max_seq := 256 }

theorem C8_missing_packages_exit_witness :
    (envW8.modelsDirExists = true) ∧ (argsW8.int8 = true) ∧
    (envW8.ortQuantAvailable = false) ∧
    (importGuard false = Except.error (PyErr.systemExit
      ("onnx package is required for export_onnx.py. " ++
       "Install it in the selected python environment.")) ∧
    (main envW8 argsW8 []).2.2 = Except.error (PyErr.runtimeError
      ("--int8 requested but onnxruntime quantization is unavailable; " ++
       "install onnxruntime in the selected python environment")) ∧
    ∀ p, Event.wroteManifest p ∉ (main envW8 argsW8 []).1) :=
  ⟨rfl, rfl, rfl, C8_missing_packages_exit envW8 argsW8 [] rfl rfl rfl⟩

def envW9 : Env :=
  { modelsDirExists := false, ortQuantAvailable := true, numKvLayers := 1,
    dtypeName := fun _ => "float", inDtype := fun _ _ => 1, outDtype := fun _ _ => 1,
    inDims := fun _ _ => [], outDims := fun _ _ => [],
    exportSize := fun _ => 10, quantSize := fun _ => 5 }

theorem C9_missing_models_dir_witness :
    (envW9.modelsDirExists = false) ∧
    (main envW9 argsW4 [] =
      ([Event.mkdirOut argsW4.out_dir], [],
       Except.error (PyErr.systemExit
         ("models-dir does not exist: " ++ argsW4.models_dir))) ∧
    (∀ v, Event.loadModel v ∉ (main envW9 argsW4 []).1) ∧
    (∀ nm p, Event.exported nm p ∉ (main envW9 argsW4 []).1) ∧
    (∀ p, Event.wroteManifest p ∉ (main envW9 argsW4 []).1) ∧
    (main envW9 argsW4 []).2.1 = []) :=
  ⟨rfl, C9_missing_models_dir envW9 argsW4 [] rfl⟩

end Pipeline

namespace HeapModel

/-! Tensor aliasing model for claim C10.  Torch tensors are mutable
storages; `clone()` allocates a fresh storage with a copy of the payload,
and the backbone / Mimi decoder write into the storages of the state dict
passed to them.  A heap of addressed storages makes the aliasing
explicit. -/

/-- A heap of tensor storages: `next` is the first unallocated address,
`mem` maps addresses to abstract tensor payloads. -/
structure Heap where
  next : Nat
  mem : Nat → Int

/-- A `model_state`: per module name, a dict from entry keys (`"cache"`,
`"offset"`) to the address of the storage holding that tensor. -/
abbrev ModelState := List (String × List (String × Nat))

/-- `{k: v.clone() for k, v in module_state.items()}`: allocate one fresh
storage per tensor and copy the payload into it. -/
def cloneTensors (h : Heap) : List (String × Nat) → Heap × List (String × Nat)
  | [] => (h, [])
  | (k, a) :: rest =>
    let h1 : Heap := ⟨h.next + 1, fun x => if x = h.next then h.mem a else h.mem x⟩
    let res := cloneTensors h1 rest
    (res.1, (k, h.next) :: res.2)

/-- `clone_model_state(state)`: a new dict of dicts whose tensors are all
fresh clones. -/
def clone_model_state (h : Heap) : ModelState → Heap × ModelState
  | [] => (h, [])
  | (name, ts) :: rest =>
    let r1 := cloneTensors h ts
    let r2 := clone_model_state r1.1 rest
    (r2.1, (name, r1.2) :: r2.2)

/-- All tensor addresses reachable from a model state. -/
def addrsOf (st : ModelState) : List Nat :=
  st.flatMap (fun m => m.2.map (fun kv => kv.2))

/-- Modelled from the spec: the stateful sub-network call —
`flow_lm.backbone(..., model_state=state)` in `FlowLMMainWrapper.forward`
and `mimi.decode_from_latent(latent, state)` in
`MimiDecoderWrapper.forward` — updates the attention caches of the
`model_state` it is given in place, writing only to that state's
storages.  The written payloads are abstracted by `w`. -/
def externalMutate (w : Nat → Int) (h : Heap) (st : ModelState) : Heap :=
  ⟨h.next, fun a => if a ∈ addrsOf st then w a else h.mem a⟩

/-- `FlowLMMainWrapper`: holds `base_state = init_states(...)`; `forward`
clones it and runs the backbone against the clone. -/
structure FlowLMMainWrapper where
  base_state : ModelState

def FlowLMMainWrapper.forward (wr : FlowLMMainWrapper) (w : Nat → Int)
    (h : Heap) : Heap :=
  let r := clone_model_state h wr.base_state
  externalMutate w r.1 r.2

/-- `MimiDecoderWrapper`: holds `base_state = init_states(...)`;
`forward` clones it and decodes with the clone. -/
structure MimiDecoderWrapper where
  base_state : ModelState

def MimiDecoderWrapper.forward (wr : MimiDecoderWrapper) (w : Nat → Int)
    (h : Heap) : Heap :=
  let r := clone_model_state h wr.base_state
  externalMutate w r.1 r.2

theorem cloneTensors_spec (ts : List (String × Nat)) :
    ∀ h : Heap,
    h.next ≤ (cloneTensors h ts).1.next ∧
    (∀ a, a < h.next → (cloneTensors h ts).1.mem a = h.mem a) ∧
    (∀ p ∈ (cloneTensors h ts).2, h.next ≤ p.2) := by
  induction ts with
  | nil =>
    intro h
    exact ⟨le_refl _, fun a _ => rfl, by simp [cloneTensors]⟩
  | cons kv rest ih =>
    intro h
    obtain ⟨k, a⟩ := kv
    obtain ⟨ih1, ih2, ih3⟩ :=
      ih ⟨h.next + 1, fun x => if x = h.next then h.mem a else h.mem x⟩
    refine ⟨?_, ?_, ?_⟩
    · exact le_trans (Nat.le_succ _) ih1
    · intro b hb
      have hred : (cloneTensors h ((k, a) :: rest)).1 =
          (cloneTensors ⟨h.next + 1,
            fun x => if x = h.next then h.mem a else h.mem x⟩ rest).1 := rfl
      rw [hred, ih2 b (lt_trans hb (Nat.lt_succ_self _))]
      simp only [if_neg (Nat.ne_of_lt hb)]
    · intro p hp
      have hred : (cloneTensors h ((k, a) :: rest)).2 =
          (k, h.next) :: (cloneTensors ⟨h.next + 1,
            fun x => if x = h.next then h.mem a else h.mem x⟩ rest).2 := rfl
      rw [hred] at hp
      rcases List.mem_cons.mp hp with rfl | hp'
      · exact le_refl _
      · exact le_trans (Nat.le_succ _) (ih3 p hp')

theorem clone_model_state_spec (st : ModelState) :
    ∀ h : Heap,
    h.next ≤ (clone_model_state h st).1.next ∧
    (∀ a, a < h.next → (clone_model_state h st).1.mem a = h.mem a) ∧
    (∀ a ∈ addrsOf (clone_model_state h st).2, h.next ≤ a) := by
  induction st with
  | nil =>
    intro h
    exact ⟨le_refl _, fun a _ => rfl, by simp [clone_model_state, addrsOf]⟩
  | cons mt rest ih =>
    intro h
    obtain ⟨name, ts⟩ := mt
    obtain ⟨c1, c2, c3⟩ := cloneTensors_spec ts h
    obtain ⟨i1, i2, i3⟩ := ih (cloneTensors h ts).1
    have hred1 : (clone_model_state h ((name, ts) :: rest)).1 =
        (clone_model_state (cloneTensors h ts).1 rest).1 := rfl
    have hred2 : (clone_model_state h ((name, ts) :: rest)).2 =
        (name, (cloneTensors h ts).2) ::
          (clone_model_state (cloneTensors h ts).1 rest).2 := rfl
    refine ⟨?_, ?_, ?_⟩
    · rw [hred1]
      exact le_trans c1 i1
    · intro a ha
      rw [hred1, i2 a (lt_of_lt_of_le ha c1), c2 a ha]
    · intro a ha
      rw [hred2] at ha
      simp only [addrsOf, List.flatMap_cons, List.mem_append] at ha
      rcases ha with ha | ha
      · obtain ⟨p, hp, rfl⟩ := List.mem_map.mp ha
        exact c3 p hp
      · exact le_trans c1 (i3 a ha)

/-- Claim C10: for every input, `FlowLMMainWrapper.forward` and
`MimiDecoderWrapper.forward` leave `self.base_state` unchanged — each
call operates on the deep copy produced by `clone_model_state`, whose
storages are fresh, so every tensor of `base_state` holds the same
payload before and after the call. -/
theorem C10_forward_preserves_base_state
    (h : Heap) (w : Nat → Int)
    (wrM : FlowLMMainWrapper) (wrD : MimiDecoderWrapper)
    (hwfM : ∀ a ∈ addrsOf wrM.base_state, a < h.next)
    (hwfD : ∀ a ∈ addrsOf wrD.base_state, a < h.next) :
    (∀ a ∈ addrsOf wrM.base_state, (wrM.forward w h).mem a = h.mem a) ∧
    (∀ a ∈ addrsOf wrD.base_state, (wrD.forward w h).mem a = h.mem a) := by
  constructor
  · intro a ha
    obtain ⟨c1, c2, c3⟩ := clone_model_state_spec wrM.base_state h
    have hlt := hwfM a ha
    have hnotin : a ∉ addrsOf (clone_model_state h wrM.base_state).2 :=
      fun hin => absurd (c3 a hin) (not_le.mpr hlt)
    show (externalMutate w (clone_model_state h wrM.base_state).1
      (clone_model_state h wrM.base_state).2).mem a = h.mem a
    simp only [externalMutate, if_neg hnotin]
    exact c2 a hlt
  · intro a ha
    obtain ⟨c1, c2, c3⟩ := clone_model_state_spec wrD.base_state h
    have hlt := hwfD a ha
    have hnotin : a ∉ addrsOf (clone_model_state h wrD.base_state).2 :=
      fun hin => absurd (c3 a hin) (not_le.mpr hlt)
    show (externalMutate w (clone_model_state h wrD.base_state).1
      (clone_model_state h wrD.base_state).2).mem a = h.mem a
    simp only [externalMutate, if_neg hnotin]
    exact c2 a hlt

def heapW10 : Heap := ⟨2, fun _ => 7⟩

def stW10 : ModelState := [("transformer.attn", [("cache", 0), ("offset", 1)])]

def wrMW10 : FlowLMMainWrapper := ⟨stW10⟩

def wrDW10 : MimiDecoderWrapper := ⟨stW10⟩

theorem C10_forward_preserves_base_state_witness :
    (∀ a ∈ addrsOf wrMW10.base_state, a < heapW10.next) ∧
    (∀ a ∈ addrsOf wrDW10.base_state, a < heapW10.next) ∧
    ((∀ a ∈ addrsOf wrMW10.base_state,
        (wrMW10.forward (fun _ => 9) heapW10).mem a = heapW10.mem a) ∧
     (∀ a ∈ addrsOf wrDW10.base_state,
        (wrDW10.forward (fun _ => 9) heapW10).mem a = heapW10.mem a)) :=
  ⟨by decide, by decide,
   C10_forward_preserves_base_state heapW10 (fun _ => 9) wrMW10 wrDW10
     (by decide) (by decide)⟩

end HeapModel
